import Mathlib

/-!
Verification of the Mini-TPU host-side compiler toolchain.

This file gives a shallow embedding of the core of the repository:

* `src/compiler/assembler.py` — the bit-exact instruction encoders
  (`encode_vpu`, `encode_systolic`, `encode_halt`, `encode_vload`,
  `encode_vstore`, `encode_vcompute`) together with their range checks
  and the `assemble_file` instruction-memory limit;
* `src/compiler/runtime/allocator.py` — the bump/free-list
  `MemoryAllocator` (`alloc`, `free`, `get`, `size`, `used`, `reset`);
* `src/compiler/kernel.py` — `Param`, `SymbolicInstruction`,
  `CompiledKernel.resolve` and `KernelLauncher.launch_batch`;
* `src/compiler/program.py` — `Program.call` / `Program.compile`;
* `src/compiler/tpu_txt.py` — the `tiled_matmul` decomposition.

Python integers are modelled as `Int` where a value is range-checked at
run time (addresses, register ids, lengths) and as `Nat` where the value
is a count (sizes, dimensions).  Code that raises is modelled with
`Except String`; the string carries the error class and message.
-/

namespace MiniTPU

/-! ## Instruction encoder (src/compiler/assembler.py) -/

/-- `OPCODES_VPU` dict: scalar VPU opcode table. -/
def OPCODES_VPU : String → Option Nat
  | "add" => some 0
  | "sub" => some 1
  | "relu" => some 2
  | "mul" => some 3
  | "relu_derivative" => some 4
  | _ => none

/-- `OPCODES_VCOMPUTE` dict: VPU SIMD opcode table (3-bit encoding). -/
def OPCODES_VCOMPUTE : String → Option Nat
  | "vadd" => some 0
  | "vsub" => some 1
  | "vrelu" => some 2
  | "vmul" => some 3
  | "vmax" => some 4
  | "vmin" => some 5
  | _ => none

def VPU_TYPE_SCALAR : Nat := 0
def VPU_TYPE_VLOAD : Nat := 1
def VPU_TYPE_VSTORE : Nat := 2
def VPU_TYPE_VCOMPUTE : Nat := 3

def MODE_VPU : Nat := 0
def MODE_SYSTOLIC : Nat := 1
def MODE_VADD : Nat := 2
def MODE_HALT : Nat := 3

def ADDR_BITS : Nat := 13
def LEN_BITS : Nat := 23
def OPCODE_BITS : Nat := 10

def ADDR_MAX : Nat := (1 <<< ADDR_BITS) - 1
def LEN_MAX : Nat := (1 <<< LEN_BITS) - 1
def OPCODE_MAX : Nat := (1 <<< OPCODE_BITS) - 1

/-- Instruction memory limit (hardware constraint), `IMEM_MAX_SIZE`. -/
def IMEM_MAX_SIZE : Nat := 256

def MEMORY_SIZE : Nat := 8192

/-- `check_addr(addr, label)`: raises `ValueError` unless `0 <= addr <= ADDR_MAX`. -/
def check_addr (addr : Int) (label : String) : Except String Unit :=
  if 0 ≤ addr ∧ addr ≤ (ADDR_MAX : Int) then Except.ok ()
  else Except.error (label ++ " address out of range (0..8191)")

/-- `check_vreg(vreg, name)`: raises `ValueError` unless `0 <= vreg <= 7`. -/
def check_vreg (vreg : Int) (name : String) : Except String Unit :=
  if 0 ≤ vreg ∧ vreg ≤ 7 then Except.ok ()
  else Except.error (name ++ " out of range (0-7)")

/-- Python dict lookup `table[op]`: raises `KeyError` on a missing key. -/
def dictGet (t : String → Option Nat) (op : String) : Except String Nat :=
  match t op with
  | some v => Except.ok v
  | none => Except.error ("KeyError: " ++ op)

/-- The pure word construction inside `encode_vpu` (the `word |= …` chain),
applied after all range checks passed, on the nonnegative values. -/
def vpuWord (opcode a b out c : Nat) : Nat :=
  (((((0 ||| ((MODE_VPU &&& 3) <<< 62))
    ||| ((a &&& ADDR_MAX) <<< 49))
    ||| ((b &&& ADDR_MAX) <<< 36))
    ||| ((out &&& ADDR_MAX) <<< 23))
    ||| ((c &&& ADDR_MAX) <<< 10))
    ||| (opcode &&& OPCODE_MAX)

/-- `encode_vpu(op, addr_a, addr_b, addr_out, addr_const=0)`. -/
def encode_vpu (op : String) (addr_a addr_b addr_out : Int)
    (addr_const : Int := 0) : Except String Nat := do
  let opcode ← dictGet OPCODES_VPU op
  let _ ← check_addr addr_a "addr_a"
  let _ ← check_addr addr_b "addr_b"
  let _ ← check_addr addr_out "addr_out"
  let _ ← check_addr addr_const "addr_const"
  pure (vpuWord opcode addr_a.toNat addr_b.toNat addr_out.toNat addr_const.toNat)

/-- The pure word construction inside `encode_systolic`. -/
def systolicWord (a b out length : Nat) : Nat :=
  ((((0 ||| ((MODE_SYSTOLIC &&& 3) <<< 62))
    ||| ((a &&& ADDR_MAX) <<< 49))
    ||| ((b &&& ADDR_MAX) <<< 36))
    ||| ((out &&& ADDR_MAX) <<< 23))
    ||| (length &&& LEN_MAX)

/-- `encode_systolic(addr_a, addr_b, addr_out, length)`. -/
def encode_systolic (addr_a addr_b addr_out length : Int) :
    Except String Nat := do
  let _ ← check_addr addr_a "addr_a"
  let _ ← check_addr addr_b "addr_b"
  let _ ← check_addr addr_out "addr_out"
  let _ ← if 0 ≤ length ∧ length ≤ (LEN_MAX : Int) then Except.ok ()
          else Except.error "length out of range"
  pure (systolicWord addr_a.toNat addr_b.toNat addr_out.toNat length.toNat)

/-- `encode_halt()`: word with only the mode field set to `MODE_HALT`. -/
def encode_halt : Nat := 0 ||| ((MODE_HALT &&& 3) <<< 62)

/-- The pure word construction inside `encode_vload`. -/
def vloadWord (vreg addr : Nat) : Nat :=
  (((0 ||| ((MODE_VPU &&& 3) <<< 62))
    ||| ((addr &&& ADDR_MAX) <<< 49))
    ||| ((VPU_TYPE_VLOAD &&& 7) <<< 20))
    ||| ((vreg &&& 7) <<< 17)

/-- `encode_vload(vreg_dst, addr)`. -/
def encode_vload (vreg_dst addr : Int) : Except String Nat := do
  let _ ← check_vreg vreg_dst "vreg_dst"
  let _ ← check_addr addr "addr"
  pure (vloadWord vreg_dst.toNat addr.toNat)

/-- The pure word construction inside `encode_vstore`. -/
def vstoreWord (vreg addr : Nat) : Nat :=
  (((0 ||| ((MODE_VPU &&& 3) <<< 62))
    ||| ((addr &&& ADDR_MAX) <<< 49))
    ||| ((VPU_TYPE_VSTORE &&& 7) <<< 20))
    ||| ((vreg &&& 7) <<< 14)

/-- `encode_vstore(vreg_src, addr)`. -/
def encode_vstore (vreg_src addr : Int) : Except String Nat := do
  let _ ← check_vreg vreg_src "vreg_src"
  let _ ← check_addr addr "addr"
  pure (vstoreWord vreg_src.toNat addr.toNat)

/-- The pure word construction inside `encode_vcompute`. -/
def vcomputeWord (opcode dst a b : Nat) (scalar : Bool) : Nat :=
  ((((((0 ||| ((MODE_VPU &&& 3) <<< 62))
    ||| ((VPU_TYPE_VCOMPUTE &&& 7) <<< 20))
    ||| ((dst &&& 7) <<< 17))
    ||| ((a &&& 7) <<< 14))
    ||| ((b &&& 7) <<< 11))
    ||| ((opcode &&& 7) <<< 4))
    ||| ((if scalar then 1 else 0) <<< 3)

/-- `encode_vcompute(op, vreg_dst, vreg_a, vreg_b=0, scalar_b=False)`. -/
def encode_vcompute (op : String) (vreg_dst vreg_a : Int)
    (vreg_b : Int := 0) (scalar_b : Bool := false) : Except String Nat := do
  let opcode ← dictGet OPCODES_VCOMPUTE op
  let _ ← check_vreg vreg_dst "vreg_dst"
  let _ ← check_vreg vreg_a "vreg_a"
  let _ ← check_vreg vreg_b "vreg_b"
  pure (vcomputeWord opcode vreg_dst.toNat vreg_a.toNat vreg_b.toNat scalar_b)

/-- Extract the inclusive bit range `[hi:lo]` of a word. -/
def bits (hi lo w : Nat) : Nat := (w >>> lo) &&& ((1 <<< (hi - lo + 1)) - 1)

/-! ### Arithmetic form of the encoded words -/

theorem or_shift_eq_add {y : Nat} (i : Nat) (x : Nat) (hy : y < 2 ^ i) :
    (x <<< i) ||| y = x * 2 ^ i + y := by
  rw [Nat.shiftLeft_eq, Nat.mul_comm]
  exact (Nat.mul_add_lt_is_or hy x).symm

theorem addr_mask_eq_mod (x : Nat) : x &&& ADDR_MAX = x % 2 ^ 13 := by
  have : ADDR_MAX = 2 ^ 13 - 1 := by decide
  rw [this, Nat.and_pow_two_sub_one_eq_mod]

theorem opcode_mask_eq_mod (x : Nat) : x &&& OPCODE_MAX = x % 2 ^ 10 := by
  have : OPCODE_MAX = 2 ^ 10 - 1 := by decide
  rw [this, Nat.and_pow_two_sub_one_eq_mod]

theorem len_mask_eq_mod (x : Nat) : x &&& LEN_MAX = x % 2 ^ 23 := by
  have : LEN_MAX = 2 ^ 23 - 1 := by decide
  rw [this, Nat.and_pow_two_sub_one_eq_mod]

theorem vpuWord_eq (opcode a b out c : Nat) :
    vpuWord opcode a b out c =
      (a % 8192) * 562949953421312 + (b % 8192) * 68719476736 +
      (out % 8192) * 8388608 + (c % 8192) * 1024 + opcode % 1024 := by
  unfold vpuWord
  rw [addr_mask_eq_mod a, addr_mask_eq_mod b, addr_mask_eq_mod out,
    addr_mask_eq_mod c, opcode_mask_eq_mod]
  have hmode : (0 ||| ((MODE_VPU &&& 3) <<< 62)) = 0 := by decide
  rw [hmode, Nat.zero_or]
  have ha : a % 2 ^ 13 < 2 ^ 13 := Nat.mod_lt _ (by norm_num)
  have hb : b % 2 ^ 13 < 2 ^ 13 := Nat.mod_lt _ (by norm_num)
  have ho : out % 2 ^ 13 < 2 ^ 13 := Nat.mod_lt _ (by norm_num)
  have hc : c % 2 ^ 13 < 2 ^ 13 := Nat.mod_lt _ (by norm_num)
  have hop : opcode % 2 ^ 10 < 2 ^ 10 := Nat.mod_lt _ (by norm_num)
  rw [Nat.or_assoc, Nat.or_assoc, Nat.or_assoc]
  rw [or_shift_eq_add 10 (c % 2 ^ 13) (by omega)]
  rw [or_shift_eq_add 23 (out % 2 ^ 13) (by omega)]
  rw [or_shift_eq_add 36 (b % 2 ^ 13) (by omega)]
  rw [or_shift_eq_add 49 (a % 2 ^ 13) (by omega)]
  norm_num
  omega

theorem systolicWord_eq (a b out len : Nat) :
    systolicWord a b out len =
      4611686018427387904 + (a % 8192) * 562949953421312 +
      (b % 8192) * 68719476736 + (out % 8192) * 8388608 + len % 8388608 := by
  unfold systolicWord
  rw [addr_mask_eq_mod a, addr_mask_eq_mod b, addr_mask_eq_mod out,
    len_mask_eq_mod]
  have hmode : (0 ||| ((MODE_SYSTOLIC &&& 3) <<< 62)) = 1 <<< 62 := by decide
  rw [hmode]
  have ha : a % 2 ^ 13 < 2 ^ 13 := Nat.mod_lt _ (by norm_num)
  have hb : b % 2 ^ 13 < 2 ^ 13 := Nat.mod_lt _ (by norm_num)
  have ho : out % 2 ^ 13 < 2 ^ 13 := Nat.mod_lt _ (by norm_num)
  have hl : len % 2 ^ 23 < 2 ^ 23 := Nat.mod_lt _ (by norm_num)
  rw [Nat.or_assoc, Nat.or_assoc, Nat.or_assoc]
  rw [or_shift_eq_add 23 (out % 2 ^ 13) (by omega)]
  rw [or_shift_eq_add 36 (b % 2 ^ 13) (by omega)]
  rw [or_shift_eq_add 49 (a % 2 ^ 13) (by omega)]
  rw [or_shift_eq_add 62 1 (by omega)]
  norm_num
  omega

theorem encode_halt_eq : encode_halt = 13835058055282163712 := by decide

theorem vloadWord_eq (vreg addr : Nat) :
    vloadWord vreg addr =
      (addr % 8192) * 562949953421312 + 1048576 + (vreg % 8) * 131072 := by
  unfold vloadWord
  rw [addr_mask_eq_mod addr]
  have h7 : ∀ x : Nat, x &&& 7 = x % 2 ^ 3 := fun x => by
    have : (7 : Nat) = 2 ^ 3 - 1 := by decide
    rw [this, Nat.and_pow_two_sub_one_eq_mod]
  rw [h7 vreg]
  have hmode : (0 ||| ((MODE_VPU &&& 3) <<< 62)) = 0 := by decide
  have htype : ((VPU_TYPE_VLOAD &&& 7) <<< 20) = 1048576 := by decide
  rw [hmode, Nat.zero_or, htype]
  have ha : addr % 2 ^ 13 < 2 ^ 13 := Nat.mod_lt _ (by norm_num)
  have hv : vreg % 2 ^ 3 < 2 ^ 3 := Nat.mod_lt _ (by norm_num)
  rw [Nat.or_assoc]
  have h1 : (1048576 : Nat) ||| (vreg % 2 ^ 3) <<< 17 =
      1048576 + (vreg % 2 ^ 3) * 131072 := by
    have : (1048576 : Nat) = 8 * 131072 := by norm_num
    rw [Nat.shiftLeft_eq]
    show 1048576 ||| vreg % 2 ^ 3 * 2 ^ 17 = 1048576 + vreg % 2 ^ 3 * 131072
    have hlt : vreg % 2 ^ 3 * 2 ^ 17 < 2 ^ 20 := by omega
    have := Nat.mul_add_lt_is_or (a := 1) hlt
    simpa [Nat.mul_comm] using this.symm
  rw [h1, or_shift_eq_add 49 (addr % 2 ^ 13) (by omega)]
  norm_num
  omega

theorem vstoreWord_eq (vreg addr : Nat) :
    vstoreWord vreg addr =
      (addr % 8192) * 562949953421312 + 2097152 + (vreg % 8) * 16384 := by
  unfold vstoreWord
  rw [addr_mask_eq_mod addr]
  have h7 : ∀ x : Nat, x &&& 7 = x % 2 ^ 3 := fun x => by
    have : (7 : Nat) = 2 ^ 3 - 1 := by decide
    rw [this, Nat.and_pow_two_sub_one_eq_mod]
  rw [h7 vreg]
  have hmode : (0 ||| ((MODE_VPU &&& 3) <<< 62)) = 0 := by decide
  have htype : ((VPU_TYPE_VSTORE &&& 7) <<< 20) = 2097152 := by decide
  rw [hmode, Nat.zero_or, htype]
  have ha : addr % 2 ^ 13 < 2 ^ 13 := Nat.mod_lt _ (by norm_num)
  have hv : vreg % 2 ^ 3 < 2 ^ 3 := Nat.mod_lt _ (by norm_num)
  rw [Nat.or_assoc]
  have h1 : (2097152 : Nat) ||| (vreg % 2 ^ 3) <<< 14 =
      2097152 + (vreg % 2 ^ 3) * 16384 := by
    rw [Nat.shiftLeft_eq]
    show 2097152 ||| vreg % 2 ^ 3 * 2 ^ 14 = 2097152 + vreg % 2 ^ 3 * 16384
    have hlt : vreg % 2 ^ 3 * 2 ^ 14 < 2 ^ 17 := by omega
    have := Nat.mul_add_lt_is_or (a := 16) hlt
    simpa [Nat.mul_comm] using this.symm
  rw [h1, or_shift_eq_add 49 (addr % 2 ^ 13) (by omega)]
  norm_num
  omega

theorem vcomputeWord_eq (opcode dst a b : Nat) (scalar : Bool) :
    vcomputeWord opcode dst a b scalar =
      3145728 + (dst % 8) * 131072 + (a % 8) * 16384 + (b % 8) * 2048 +
      (opcode % 8) * 16 + (if scalar then 1 else 0) * 8 := by
  unfold vcomputeWord
  have h7 : ∀ x : Nat, x &&& 7 = x % 2 ^ 3 := fun x => by
    have : (7 : Nat) = 2 ^ 3 - 1 := by decide
    rw [this, Nat.and_pow_two_sub_one_eq_mod]
  rw [h7 dst, h7 a, h7 b, h7 opcode]
  have hmode : (0 ||| ((MODE_VPU &&& 3) <<< 62)) = 0 := by decide
  have htype : ((VPU_TYPE_VCOMPUTE &&& 7) <<< 20) = 3145728 := by decide
  rw [hmode, Nat.zero_or, htype]
  have hd : dst % 2 ^ 3 < 2 ^ 3 := Nat.mod_lt _ (by norm_num)
  have ha : a % 2 ^ 3 < 2 ^ 3 := Nat.mod_lt _ (by norm_num)
  have hb : b % 2 ^ 3 < 2 ^ 3 := Nat.mod_lt _ (by norm_num)
  have hop : opcode % 2 ^ 3 < 2 ^ 3 := Nat.mod_lt _ (by norm_num)
  have hs : (if scalar then 1 else 0) < 2 := by cases scalar <;> simp
  rw [Nat.or_assoc, Nat.or_assoc, Nat.or_assoc, Nat.or_assoc]
  rw [or_shift_eq_add 4 (opcode % 2 ^ 3) (by cases scalar <;> simp_all)]
  rw [or_shift_eq_add 11 (b % 2 ^ 3) (by omega)]
  rw [or_shift_eq_add 14 (a % 2 ^ 3) (by omega)]
  rw [or_shift_eq_add 17 (dst % 2 ^ 3) (by omega)]
  have h2 : (3145728 : Nat) ||| (dst % 2 ^ 3 * 2 ^ 17 + (a % 2 ^ 3 * 2 ^ 14 +
      (b % 2 ^ 3 * 2 ^ 11 + (opcode % 2 ^ 3 * 2 ^ 4 +
        (if scalar then 1 else 0) <<< 3)))) =
      3145728 + (dst % 2 ^ 3 * 2 ^ 17 + (a % 2 ^ 3 * 2 ^ 14 +
      (b % 2 ^ 3 * 2 ^ 11 + (opcode % 2 ^ 3 * 2 ^ 4 +
        (if scalar then 1 else 0) <<< 3)))) := by
    have h3 : (3145728 : Nat) = 2 ^ 20 * 3 := by norm_num
    rw [h3]
    refine (Nat.mul_add_lt_is_or ?_ 3).symm
    rw [Nat.shiftLeft_eq]
    omega
  rw [h2, Nat.shiftLeft_eq]
  omega

theorem bits_eq_div_mod (hi lo w : Nat) :
    bits hi lo w = w / 2 ^ lo % 2 ^ (hi - lo + 1) := by
  unfold bits
  rw [Nat.shiftRight_eq_div_pow, Nat.shiftLeft_eq, Nat.one_mul,
    Nat.and_pow_two_sub_one_eq_mod]

/-! ### Closed forms of the encoders -/

theorem encode_vpu_def (op : String) (a b o c : Int) :
    encode_vpu op a b o c =
      match OPCODES_VPU op with
      | none => Except.error ("KeyError: " ++ op)
      | some k =>
        if 0 ≤ a ∧ a ≤ (ADDR_MAX : Int) then
          if 0 ≤ b ∧ b ≤ (ADDR_MAX : Int) then
            if 0 ≤ o ∧ o ≤ (ADDR_MAX : Int) then
              if 0 ≤ c ∧ c ≤ (ADDR_MAX : Int) then
                Except.ok (vpuWord k a.toNat b.toNat o.toNat c.toNat)
              else Except.error "addr_const address out of range (0..8191)"
            else Except.error "addr_out address out of range (0..8191)"
          else Except.error "addr_b address out of range (0..8191)"
        else Except.error "addr_a address out of range (0..8191)" := by
  unfold encode_vpu dictGet check_addr
  cases OPCODES_VPU op <;> simp only [] <;> split_ifs <;> rfl

theorem encode_systolic_def (a b o len : Int) :
    encode_systolic a b o len =
      if 0 ≤ a ∧ a ≤ (ADDR_MAX : Int) then
        if 0 ≤ b ∧ b ≤ (ADDR_MAX : Int) then
          if 0 ≤ o ∧ o ≤ (ADDR_MAX : Int) then
            if 0 ≤ len ∧ len ≤ (LEN_MAX : Int) then
              Except.ok (systolicWord a.toNat b.toNat o.toNat len.toNat)
            else Except.error "length out of range"
          else Except.error "addr_out address out of range (0..8191)"
        else Except.error "addr_b address out of range (0..8191)"
      else Except.error "addr_a address out of range (0..8191)" := by
  unfold encode_systolic check_addr
  split_ifs <;> rfl

theorem encode_vload_def (vreg addr : Int) :
    encode_vload vreg addr =
      if 0 ≤ vreg ∧ vreg ≤ 7 then
        if 0 ≤ addr ∧ addr ≤ (ADDR_MAX : Int) then
          Except.ok (vloadWord vreg.toNat addr.toNat)
        else Except.error "addr address out of range (0..8191)"
      else Except.error "vreg_dst out of range (0-7)" := by
  unfold encode_vload check_vreg check_addr
  split_ifs <;> rfl

theorem encode_vstore_def (vreg addr : Int) :
    encode_vstore vreg addr =
      if 0 ≤ vreg ∧ vreg ≤ 7 then
        if 0 ≤ addr ∧ addr ≤ (ADDR_MAX : Int) then
          Except.ok (vstoreWord vreg.toNat addr.toNat)
        else Except.error "addr address out of range (0..8191)"
      else Except.error "vreg_src out of range (0-7)" := by
  unfold encode_vstore check_vreg check_addr
  split_ifs <;> rfl

theorem encode_vcompute_def (op : String) (dst a b : Int) (s : Bool) :
    encode_vcompute op dst a b s =
      match OPCODES_VCOMPUTE op with
      | none => Except.error ("KeyError: " ++ op)
      | some k =>
        if 0 ≤ dst ∧ dst ≤ 7 then
          if 0 ≤ a ∧ a ≤ 7 then
            if 0 ≤ b ∧ b ≤ 7 then
              Except.ok (vcomputeWord k dst.toNat a.toNat b.toNat s)
            else Except.error "vreg_b out of range (0-7)"
          else Except.error "vreg_a out of range (0-7)"
        else Except.error "vreg_dst out of range (0-7)" := by
  unfold encode_vcompute dictGet check_vreg
  cases OPCODES_VCOMPUTE op <;> simp only [] <;> split_ifs <;> rfl

/-! ### Range predicates (the declared argument ranges of §4.1) -/

def inAddrRange (x : Int) : Prop := 0 ≤ x ∧ x ≤ 8191

def inVregRange (x : Int) : Prop := 0 ≤ x ∧ x ≤ 7

def inLenRange (x : Int) : Prop := 0 ≤ x ∧ x ≤ 8388607

instance (x : Int) : Decidable (inAddrRange x) := by unfold inAddrRange; infer_instance
instance (x : Int) : Decidable (inVregRange x) := by unfold inVregRange; infer_instance
instance (x : Int) : Decidable (inLenRange x) := by unfold inLenRange; infer_instance

theorem ADDR_MAX_cast : (ADDR_MAX : Int) = 8191 := by decide
theorem LEN_MAX_cast : (LEN_MAX : Int) = 8388607 := by decide

theorem OPCODES_VPU_le {op : String} {k : Nat} (h : OPCODES_VPU op = some k) :
    k ≤ 4 := by
  unfold OPCODES_VPU at h
  split at h <;> simp_all <;> omega

theorem OPCODES_VCOMPUTE_le {op : String} {k : Nat}
    (h : OPCODES_VCOMPUTE op = some k) : k ≤ 5 := by
  unfold OPCODES_VCOMPUTE at h
  split at h <;> simp_all <;> omega

/-! ### Error characterizations: an encoder fails exactly on an
out-of-range argument or an unknown opcode -/

theorem encode_vpu_error_iff (op : String) (a b o c : Int) :
    (∃ e, encode_vpu op a b o c = Except.error e) ↔
      (OPCODES_VPU op = none ∨ ¬inAddrRange a ∨ ¬inAddrRange b ∨
        ¬inAddrRange o ∨ ¬inAddrRange c) := by
  rw [encode_vpu_def]
  simp only [ADDR_MAX_cast]
  cases h : OPCODES_VPU op
  · simp
  · simp only [h]
    split_ifs with h1 h2 h3 h4 <;>
      simp_all [inAddrRange]

theorem encode_systolic_error_iff (a b o len : Int) :
    (∃ e, encode_systolic a b o len = Except.error e) ↔
      (¬inAddrRange a ∨ ¬inAddrRange b ∨ ¬inAddrRange o ∨ ¬inLenRange len) := by
  rw [encode_systolic_def]
  simp only [ADDR_MAX_cast, LEN_MAX_cast]
  split_ifs with h1 h2 h3 h4 <;>
    simp_all [inAddrRange, inLenRange]

theorem encode_vload_error_iff (vreg addr : Int) :
    (∃ e, encode_vload vreg addr = Except.error e) ↔
      (¬inVregRange vreg ∨ ¬inAddrRange addr) := by
  rw [encode_vload_def]
  simp only [ADDR_MAX_cast]
  split_ifs with h1 h2 <;> simp_all [inAddrRange, inVregRange]

theorem encode_vstore_error_iff (vreg addr : Int) :
    (∃ e, encode_vstore vreg addr = Except.error e) ↔
      (¬inVregRange vreg ∨ ¬inAddrRange addr) := by
  rw [encode_vstore_def]
  simp only [ADDR_MAX_cast]
  split_ifs with h1 h2 <;> simp_all [inAddrRange, inVregRange]

theorem encode_vcompute_error_iff (op : String) (dst a b : Int) (s : Bool) :
    (∃ e, encode_vcompute op dst a b s = Except.error e) ↔
      (OPCODES_VCOMPUTE op = none ∨ ¬inVregRange dst ∨ ¬inVregRange a ∨
        ¬inVregRange b) := by
  rw [encode_vcompute_def]
  cases h : OPCODES_VCOMPUTE op
  · simp
  · simp only [h]
    split_ifs with h1 h2 h3 <;> simp_all [inVregRange]

/-- On an `Except` result an error and a returned word are mutually
exclusive, so the error characterizations also say exactly when a word is
produced. -/
theorem error_iff_no_word (x : Except String Nat) :
    (∃ e, x = Except.error e) ↔ ¬∃ w, x = Except.ok w := by
  cases x <;> simp

/-- Scalar `encode_vpu` with a high `addr_const` succeeds, and the produced
word has nonzero `vpu_type` bits [22:20]. -/
theorem encode_vpu_high_const {op : String} {k : Nat} {a b o c : Int}
    (hop : OPCODES_VPU op = some k) (ha : inAddrRange a) (hb : inAddrRange b)
    (ho : inAddrRange o) (hc : 4096 ≤ c ∧ c ≤ 8191) :
    ∃ w, encode_vpu op a b o c = Except.ok w ∧ bits 22 20 w ≠ 0 := by
  obtain ⟨ha0, ha1⟩ := ha
  obtain ⟨hb0, hb1⟩ := hb
  obtain ⟨ho0, ho1⟩ := ho
  have hk := OPCODES_VPU_le hop
  rw [encode_vpu_def, hop]
  simp only [ADDR_MAX_cast]
  rw [if_pos ⟨ha0, ha1⟩, if_pos ⟨hb0, hb1⟩, if_pos ⟨ho0, ho1⟩,
    if_pos ⟨by omega, by omega⟩]
  refine ⟨_, rfl, ?_⟩
  rw [bits_eq_div_mod, vpuWord_eq]
  have haN : a.toNat ≤ 8191 := by omega
  have hbN : b.toNat ≤ 8191 := by omega
  have hoN : o.toNat ≤ 8191 := by omega
  have hcN : 4096 ≤ c.toNat ∧ c.toNat ≤ 8191 := by omega
  norm_num
  omega

/-- Word-level bounds used to separate encoder output from HALT. -/
theorem vpuWord_lt (opcode a b out c : Nat) :
    vpuWord opcode a b out c < 2 ^ 62 := by
  rw [vpuWord_eq]
  have ha : a % 8192 < 8192 := Nat.mod_lt _ (by norm_num)
  have hb : b % 8192 < 8192 := Nat.mod_lt _ (by norm_num)
  have ho : out % 8192 < 8192 := Nat.mod_lt _ (by norm_num)
  have hc : c % 8192 < 8192 := Nat.mod_lt _ (by norm_num)
  have hop : opcode % 1024 < 1024 := Nat.mod_lt _ (by norm_num)
  norm_num
  omega

theorem systolicWord_lt (a b out len : Nat) :
    systolicWord a b out len < 2 ^ 63 := by
  rw [systolicWord_eq]
  have ha : a % 8192 < 8192 := Nat.mod_lt _ (by norm_num)
  have hb : b % 8192 < 8192 := Nat.mod_lt _ (by norm_num)
  have ho : out % 8192 < 8192 := Nat.mod_lt _ (by norm_num)
  have hl : len % 8388608 < 8388608 := Nat.mod_lt _ (by norm_num)
  norm_num
  omega

theorem vloadWord_lt (vreg addr : Nat) : vloadWord vreg addr < 2 ^ 62 := by
  rw [vloadWord_eq]
  have ha : addr % 8192 < 8192 := Nat.mod_lt _ (by norm_num)
  have hv : vreg % 8 < 8 := Nat.mod_lt _ (by norm_num)
  norm_num
  omega

theorem vstoreWord_lt (vreg addr : Nat) : vstoreWord vreg addr < 2 ^ 62 := by
  rw [vstoreWord_eq]
  have ha : addr % 8192 < 8192 := Nat.mod_lt _ (by norm_num)
  have hv : vreg % 8 < 8 := Nat.mod_lt _ (by norm_num)
  norm_num
  omega

theorem vcomputeWord_lt (opcode dst a b : Nat) (s : Bool) :
    vcomputeWord opcode dst a b s < 2 ^ 62 := by
  rw [vcomputeWord_eq]
  have hd : dst % 8 < 8 := Nat.mod_lt _ (by norm_num)
  have ha : a % 8 < 8 := Nat.mod_lt _ (by norm_num)
  have hb : b % 8 < 8 := Nat.mod_lt _ (by norm_num)
  have hop : opcode % 8 < 8 := Nat.mod_lt _ (by norm_num)
  cases s <;> norm_num <;> omega

/-- C2, claim theorem.
Each encode function (`encode_vpu`, `encode_systolic`, `encode_vload`,
`encode_vstore`, `encode_vcompute`) raises an error — and hence produces no
word — if and only if an argument is out of its declared range: an address
outside [0,8191], a register id outside [0,7], a length outside
[0,2^23−1], or an opcode name not in its table; it never silently
truncates.  Moreover for every `addr_const` in [4096,8191], `encode_vpu`
on a scalar op returns normally (the scalar `addr_const < 4096` constraint
is not validated at encode time) and the produced word has nonzero
`vpu_type` bits [22:20]. -/
theorem claim_C2 :
    (∀ (op : String) (a b o c : Int),
      (∃ e, encode_vpu op a b o c = Except.error e) ↔
        (OPCODES_VPU op = none ∨ ¬inAddrRange a ∨ ¬inAddrRange b ∨
          ¬inAddrRange o ∨ ¬inAddrRange c)) ∧
    (∀ (a b o len : Int),
      (∃ e, encode_systolic a b o len = Except.error e) ↔
        (¬inAddrRange a ∨ ¬inAddrRange b ∨ ¬inAddrRange o ∨
          ¬inLenRange len)) ∧
    (∀ (vreg addr : Int),
      (∃ e, encode_vload vreg addr = Except.error e) ↔
        (¬inVregRange vreg ∨ ¬inAddrRange addr)) ∧
    (∀ (vreg addr : Int),
      (∃ e, encode_vstore vreg addr = Except.error e) ↔
        (¬inVregRange vreg ∨ ¬inAddrRange addr)) ∧
    (∀ (op : String) (dst a b : Int) (s : Bool),
      (∃ e, encode_vcompute op dst a b s = Except.error e) ↔
        (OPCODES_VCOMPUTE op = none ∨ ¬inVregRange dst ∨ ¬inVregRange a ∨
          ¬inVregRange b)) ∧
    (∀ (op : String) (k : Nat) (a b o c : Int),
      OPCODES_VPU op = some k → inAddrRange a → inAddrRange b →
      inAddrRange o → 4096 ≤ c → c ≤ 8191 →
      ∃ w, encode_vpu op a b o c = Except.ok w ∧ bits 22 20 w ≠ 0) :=
  ⟨encode_vpu_error_iff, encode_systolic_error_iff, encode_vload_error_iff,
    encode_vstore_error_iff, encode_vcompute_error_iff,
    fun _ _ _ _ _ _ hop ha hb ho hc1 hc2 =>
      encode_vpu_high_const hop ha hb ho ⟨hc1, hc2⟩⟩

/-- C2, witness: the characterizations evaluated at concrete inputs —
`encode_vpu "add"` with address 9000 errs, with addresses in range and
`addr_const = 5000` it succeeds with nonzero `vpu_type` bits. -/
theorem claim_C2_witness :
    (∃ e, encode_vpu "add" 9000 0 0 0 = Except.error e) ∧
    (∃ w, encode_vpu "add" 0 4 8 5000 = Except.ok w ∧ bits 22 20 w ≠ 0) := by
  constructor
  · exact (claim_C2.1 "add" 9000 0 0 0).mpr (by decide)
  · exact claim_C2.2.2.2.2.2 "add" 0 0 4 8 5000 (by decide) (by decide)
      (by decide) (by decide) (by decide) (by decide)

/-- C9, claim theorem.
For every `addr_a`, `addr_b`, `addr_out` in [0,8191] (and the remaining
fields valid), extracting bits [61:49], [48:36] and [35:23] of the word
produced by `encode_vpu` or `encode_systolic` recovers the three
addresses exactly. -/
theorem claim_C9 :
    (∀ (op : String) (k : Nat) (a b o c : Int) (w : Nat),
      OPCODES_VPU op = some k → inAddrRange a → inAddrRange b →
      inAddrRange o → inAddrRange c →
      encode_vpu op a b o c = Except.ok w →
      bits 61 49 w = a.toNat ∧ bits 48 36 w = b.toNat ∧
        bits 35 23 w = o.toNat) ∧
    (∀ (a b o len : Int) (w : Nat),
      inAddrRange a → inAddrRange b → inAddrRange o → inLenRange len →
      encode_systolic a b o len = Except.ok w →
      bits 61 49 w = a.toNat ∧ bits 48 36 w = b.toNat ∧
        bits 35 23 w = o.toNat) := by
  constructor
  · intro op k a b o c w hop ha hb ho hc hw
    obtain ⟨ha0, ha1⟩ := ha
    obtain ⟨hb0, hb1⟩ := hb
    obtain ⟨ho0, ho1⟩ := ho
    obtain ⟨hc0, hc1⟩ := hc
    have hk := OPCODES_VPU_le hop
    rw [encode_vpu_def, hop] at hw
    simp only [ADDR_MAX_cast] at hw
    rw [if_pos ⟨ha0, ha1⟩, if_pos ⟨hb0, hb1⟩, if_pos ⟨ho0, ho1⟩,
      if_pos ⟨hc0, hc1⟩] at hw
    cases hw
    rw [vpuWord_eq, bits_eq_div_mod, bits_eq_div_mod, bits_eq_div_mod]
    norm_num
    omega
  · intro a b o len w ha hb ho hl hw
    obtain ⟨ha0, ha1⟩ := ha
    obtain ⟨hb0, hb1⟩ := hb
    obtain ⟨ho0, ho1⟩ := ho
    obtain ⟨hl0, hl1⟩ := hl
    rw [encode_systolic_def] at hw
    simp only [ADDR_MAX_cast, LEN_MAX_cast] at hw
    rw [if_pos ⟨ha0, ha1⟩, if_pos ⟨hb0, hb1⟩, if_pos ⟨ho0, ho1⟩,
      if_pos ⟨hl0, hl1⟩] at hw
    cases hw
    rw [systolicWord_eq, bits_eq_div_mod, bits_eq_div_mod, bits_eq_div_mod]
    norm_num
    omega

/-- C9, witness: round-trip of the three address fields at concrete
inputs, for a VPU word and a SYSTOLIC word. -/
theorem claim_C9_witness :
    (∃ w, encode_vpu "mul" 13 4095 8191 0 = Except.ok w ∧
      bits 61 49 w = 13 ∧ bits 48 36 w = 4095 ∧ bits 35 23 w = 8191) ∧
    (∃ w, encode_systolic 100 200 300 16 = Except.ok w ∧
      bits 61 49 w = 100 ∧ bits 48 36 w = 200 ∧ bits 35 23 w = 300) := by
  constructor
  · have h : encode_vpu "mul" 13 4095 8191 0 =
        Except.ok (vpuWord 3 13 4095 8191 0) := by rfl
    have := claim_C9.1 "mul" 3 13 4095 8191 0 (vpuWord 3 13 4095 8191 0)
      (by decide) (by decide) (by decide) (by decide) (by decide) h
    exact ⟨_, h, this.1, this.2.1, this.2.2⟩
  · have h : encode_systolic 100 200 300 16 =
        Except.ok (systolicWord 100 200 300 16) := by rfl
    have := claim_C9.2 100 200 300 16 (systolicWord 100 200 300 16)
      (by decide) (by decide) (by decide) (by decide) h
    exact ⟨_, h, this.1, this.2.1, this.2.2⟩

/-! ## Memory allocator (src/compiler/runtime/allocator.py)

The Python object is a triple `(next_free_addr, memory_map, free_list)`;
`memory_map` is an insertion-ordered dict, modelled by an association
list where assignment to an existing key replaces its value in place.
Methods that mutate in place are modelled as functions returning the new
allocator state paired with their result; a method that raises returns
the state unchanged together with the error (the source raises before
any field is touched). -/

structure MemoryAllocator where
  next_free_addr : Nat
  memory_map : List (String × Nat × Nat)
  free_list : List (Nat × Nat)
deriving DecidableEq

/-- A fresh `MemoryAllocator()`. -/
def freshAllocator : MemoryAllocator := ⟨0, [], []⟩

/-- Ordered-dict lookup `m[name]`. -/
def lookupMap : List (String × Nat × Nat) → String → Option (Nat × Nat)
  | [], _ => none
  | (k, v) :: rest, n => if k = n then some v else lookupMap rest n

/-- Ordered-dict assignment `m[name] = v`: replaces in place, else appends. -/
def insertMap : List (String × Nat × Nat) → String → Nat × Nat →
    List (String × Nat × Nat)
  | [], n, v => [(n, v)]
  | (k, w) :: rest, n, v =>
    if k = n then (k, v) :: rest else (k, w) :: insertMap rest n v

/-- Ordered-dict `m.pop(name)` (the removal part). -/
def removeMap : List (String × Nat × Nat) → String → List (String × Nat × Nat)
  | [], _ => []
  | (k, w) :: rest, n => if k = n then rest else (k, w) :: removeMap rest n

/-- The first-fit scan in `alloc`: the first free block with
`size ≥ words`, together with the blocks before and after it (so that
`pop(i)` is `pre ++ post`). -/
def splitFit : List (Nat × Nat) → Nat →
    Option (List (Nat × Nat) × (Nat × Nat) × List (Nat × Nat))
  | [], _ => none
  | blk :: rest, words =>
    if blk.2 ≥ words then some ([], blk, rest)
    else
      match splitFit rest words with
      | some (pre, b, post) => some (blk :: pre, b, post)
      | none => none

/-- `MemoryAllocator.alloc(name, words)`. -/
def MemoryAllocator.alloc (st : MemoryAllocator) (name : String)
    (words : Nat) : MemoryAllocator × Except String Nat :=
  match splitFit st.free_list words with
  | some (pre, blk, post) =>
    -- use this block; if larger, return the remainder to the free list
    ({ st with memory_map := insertMap st.memory_map name (blk.1, words),
               free_list :=
                 if blk.2 > words
                 then (pre ++ post) ++ [(blk.1 + words, blk.2 - words)]
                 else pre ++ post },
     Except.ok blk.1)
  | none =>
    -- no suitable free block, bump allocate
    if st.next_free_addr + words > MEMORY_SIZE then
      (st, Except.error "MemoryError: Out of TPU BRAM")
    else
      ({ st with next_free_addr := st.next_free_addr + words,
                 memory_map :=
                   insertMap st.memory_map name (st.next_free_addr, words) },
       Except.ok st.next_free_addr)

/-- `MemoryAllocator.free(name)`. -/
def MemoryAllocator.free (st : MemoryAllocator) (name : String) :
    MemoryAllocator × Option (Nat × Nat) :=
  match lookupMap st.memory_map name with
  | none => (st, none)
  | some (addr, size) =>
    ({ st with memory_map := removeMap st.memory_map name,
               free_list := st.free_list ++ [(addr, size)] },
     some (addr, size))

/-- `MemoryAllocator.used()`: total words currently mapped. -/
def MemoryAllocator.used (st : MemoryAllocator) : Nat :=
  (st.memory_map.map (fun kv => kv.2.2)).sum

/-- `MemoryAllocator.reset()`. -/
def MemoryAllocator.reset (_ : MemoryAllocator) : MemoryAllocator :=
  ⟨0, [], []⟩

/-! ### Reachable allocator states -/

/-- One call in a client's interaction with the allocator. -/
inductive AllocOp where
  | alloc (name : String) (words : Nat)
  | free (name : String)
  | reset
deriving DecidableEq

/-- Apply one call; a raising `alloc` leaves the state unchanged (the
source raises before mutating anything). -/
def applyOp (st : MemoryAllocator) : AllocOp → MemoryAllocator
  | .alloc n w => (st.alloc n w).1
  | .free n => (st.free n).1
  | .reset => st.reset

/-- The state after a sequence of calls on a fresh allocator. -/
def runOps (ops : List AllocOp) : MemoryAllocator :=
  ops.foldl applyOp freshAllocator

/-! ### Allocator claims C7, C8, C10 -/

instance {ε α : Type} [DecidableEq ε] [DecidableEq α] :
    DecidableEq (Except ε α) := fun x y =>
  match x, y with
  | .ok a, .ok b => if h : a = b then .isTrue (by rw [h]) else
      .isFalse (by intro hc; cases hc; exact h rfl)
  | .error a, .error b => if h : a = b then .isTrue (by rw [h]) else
      .isFalse (by intro hc; cases hc; exact h rfl)
  | .ok _, .error _ => .isFalse (by intro hc; cases hc)
  | .error _, .ok _ => .isFalse (by intro hc; cases hc)

theorem splitFit_none_iff (fl : List (Nat × Nat)) (w : Nat) :
    splitFit fl w = none ↔ ∀ blk ∈ fl, blk.2 < w := by
  induction fl with
  | nil => simp [splitFit]
  | cons blk rest ih =>
    by_cases h : blk.2 ≥ w
    · constructor
      · intro hn
        rw [splitFit, if_pos h] at hn
        cases hn
      · intro hall
        exact absurd (hall blk (by simp)) (by omega)
    · constructor
      · intro hn b hb
        rw [splitFit, if_neg h] at hn
        rcases List.mem_cons.mp hb with rfl | hb'
        · omega
        · cases hs : splitFit rest w with
          | some r =>
            obtain ⟨p, bb, po⟩ := r
            rw [hs] at hn
            cases hn
          | none => exact (ih.mp hs) b hb'
      · intro hall
        rw [splitFit, if_neg h]
        have hrest : splitFit rest w = none :=
          ih.mpr (fun b hb => hall b (List.mem_cons_of_mem _ hb))
        rw [hrest]

/-- C7, claim theorem.
`MemoryAllocator.alloc(name, words)` raises the out-of-memory error
exactly when no free-list block has size ≥ words and
`next_free_addr + words > 8192`; and when it raises, the allocator state
is exactly what it was before the call. -/
theorem claim_C7 (st : MemoryAllocator) (name : String) (words : Nat) :
    ((∃ e, (st.alloc name words).2 = Except.error e) ↔
      ((∀ blk ∈ st.free_list, blk.2 < words) ∧
        st.next_free_addr + words > 8192)) ∧
    ((∃ e, (st.alloc name words).2 = Except.error e) →
      (st.alloc name words).1 = st) := by
  unfold MemoryAllocator.alloc
  cases hs : splitFit st.free_list words with
  | some r =>
    obtain ⟨pre, blk, post⟩ := r
    refine ⟨⟨fun h => ?_, fun h => ?_⟩, fun h => ?_⟩
    · obtain ⟨e, he⟩ := h; cases he
    · obtain ⟨hall, _⟩ := h
      rw [← splitFit_none_iff] at hall
      rw [hall] at hs; cases hs
    · obtain ⟨e, he⟩ := h; cases he
  | none =>
    rw [splitFit_none_iff] at hs
    by_cases hov : st.next_free_addr + words > MEMORY_SIZE
    · rw [if_pos hov]
      exact ⟨⟨fun _ => ⟨hs, hov⟩, fun _ => ⟨_, rfl⟩⟩, fun _ => rfl⟩
    · rw [if_neg hov]
      have hne : ¬(st.next_free_addr + words > 8192) := hov
      refine ⟨⟨fun h => ?_, fun h => ?_⟩, fun h => ?_⟩
      · obtain ⟨e, he⟩ := h; cases he
      · exact absurd h.2 hne
      · obtain ⟨e, he⟩ := h; cases he

/-- C7, witness: allocating 8193 words on a fresh allocator raises and
leaves the state unchanged; allocating 8192 words succeeds. -/
theorem claim_C7_witness :
    (∃ e, (freshAllocator.alloc "x" 8193).2 = Except.error e) ∧
    (freshAllocator.alloc "x" 8193).1 = freshAllocator ∧
    ¬∃ e, (freshAllocator.alloc "x" 8192).2 = Except.error e := by
  have h1 := (claim_C7 freshAllocator "x" 8193).1.mpr
    (by constructor <;> simp [freshAllocator])
  refine ⟨h1, (claim_C7 freshAllocator "x" 8193).2 h1, ?_⟩
  intro he
  have := (claim_C7 freshAllocator "x" 8192).1.mp he
  simp [freshAllocator] at this

/-- C8, claim theorem.
On a fresh allocator: `alloc("a",16)` returns 0, `alloc("b",16)` returns
16, then after `free("a")`, `alloc("c",8)` reuses the freed block
first-fit returning 0 and leaving free block (8,8), `alloc("d",8)`
exact-fits that remainder returning 8, and `used()` afterwards is 32. -/
theorem claim_C8 :
    (freshAllocator.alloc "a" 16).2 = Except.ok 0 ∧
    ((freshAllocator.alloc "a" 16).1.alloc "b" 16).2 = Except.ok 16 ∧
    (let st2 := ((freshAllocator.alloc "a" 16).1.alloc "b" 16).1
     let st3 := (st2.free "a").1
     (st3.alloc "c" 8).2 = Except.ok 0 ∧
     (st3.alloc "c" 8).1.free_list = [(8, 8)] ∧
     ((st3.alloc "c" 8).1.alloc "d" 8).2 = Except.ok 8 ∧
     (((st3.alloc "c" 8).1.alloc "d" 8).1).used = 32) := by
  decide

/-- C10, claim theorem.
`MemoryAllocator.free(name)` on a name absent from `memory_map` is a
silent no-op returning `None` with the whole state unchanged; on a
present name it removes the mapping, appends its (addr, size) to the
free list, and returns that pair. -/
theorem claim_C10 (st : MemoryAllocator) (name : String) :
    (lookupMap st.memory_map name = none → st.free name = (st, none)) ∧
    (∀ addr size, lookupMap st.memory_map name = some (addr, size) →
      st.free name =
        ({ st with memory_map := removeMap st.memory_map name,
                   free_list := st.free_list ++ [(addr, size)] },
         some (addr, size))) := by
  constructor
  · intro h
    unfold MemoryAllocator.free
    rw [h]
  · intro addr size h
    unfold MemoryAllocator.free
    rw [h]

/-- C10, witness: freeing a missing name is a no-op; freeing a present
name moves its block to the free list. -/
theorem claim_C10_witness :
    ((freshAllocator.alloc "a" 16).1.free "zz" =
      ((freshAllocator.alloc "a" 16).1, none)) ∧
    ((freshAllocator.alloc "a" 16).1.free "a" =
      (⟨16, [], [(0, 16)]⟩, some (0, 16))) := by
  constructor
  · exact (claim_C10 (freshAllocator.alloc "a" 16).1 "zz").1 (by decide)
  · have := (claim_C10 (freshAllocator.alloc "a" 16).1 "a").2 0 16 (by decide)
    rw [this]
    decide

/-! ### The allocator interval invariant (C5) -/

/-- All address intervals recorded in the allocator: the values of
`memory_map` followed by the `free_list` blocks. -/
def allIntervals (st : MemoryAllocator) : List (Nat × Nat) :=
  st.memory_map.map (fun kv => kv.2) ++ st.free_list

/-- Whether address `x` lies inside interval `iv = (addr, size)`. -/
def containsB (x : Nat) (iv : Nat × Nat) : Bool :=
  decide (iv.1 ≤ x ∧ x < iv.1 + iv.2)

/-- Two `(addr, size)` intervals overlap when they share an address. -/
def ivOverlap (p q : Nat × Nat) : Prop :=
  ∃ x, (p.1 ≤ x ∧ x < p.1 + p.2) ∧ (q.1 ≤ x ∧ x < q.1 + q.2)

instance (p q : Nat × Nat) : Decidable (ivOverlap p q) := by
  unfold ivOverlap
  by_cases h : max p.1 q.1 < min (p.1 + p.2) (q.1 + q.2)
  · exact .isTrue ⟨max p.1 q.1, by omega, by omega⟩
  · exact .isFalse (by rintro ⟨x, h1, h2⟩; omega)

/-- The inductive invariant: `next_free_addr` never exceeds the arena,
every recorded interval ends at or below `next_free_addr`, and no address
is inside more than one recorded interval. -/
def okInv (st : MemoryAllocator) : Prop :=
  st.next_free_addr ≤ 8192 ∧
  (∀ iv ∈ allIntervals st, iv.1 + iv.2 ≤ st.next_free_addr) ∧
  (∀ x : Nat, (allIntervals st).countP (containsB x) ≤ 1)

theorem values_insertMap_mem {m : List (String × Nat × Nat)} {n : String}
    {v iv : Nat × Nat}
    (h : iv ∈ (insertMap m n v).map (fun kv => kv.2)) :
    iv = v ∨ iv ∈ m.map (fun kv => kv.2) := by
  induction m with
  | nil => simp [insertMap] at h; exact Or.inl h
  | cons kw rest ih =>
    obtain ⟨k, w⟩ := kw
    rw [insertMap] at h
    by_cases hk : k = n
    · rw [if_pos hk] at h
      simp at h
      rcases h with h | h
      · exact Or.inl h
      · exact Or.inr (by simp [h])
    · rw [if_neg hk] at h
      simp at h
      rcases h with h | h
      · exact Or.inr (by simp [h])
      · rcases ih (by simpa using h) with h' | h'
        · exact Or.inl h'
        · exact Or.inr (by simp; exact Or.inr (by simpa using h'))

theorem countP_values_insertMap (m : List (String × Nat × Nat)) (n : String)
    (v : Nat × Nat) (p : Nat × Nat → Bool) :
    ((insertMap m n v).map (fun kv => kv.2)).countP p ≤
      (m.map (fun kv => kv.2)).countP p + (if p v then 1 else 0) := by
  induction m with
  | nil => simp [insertMap, List.countP_cons]
  | cons kw rest ih =>
    obtain ⟨k, w⟩ := kw
    rw [insertMap]
    by_cases hk : k = n
    · rw [if_pos hk]
      simp only [List.map_cons, List.countP_cons]
      omega
    · rw [if_neg hk]
      simp only [List.map_cons, List.countP_cons]
      omega

theorem lookup_values_perm {m : List (String × Nat × Nat)} {n : String}
    {a s : Nat} (h : lookupMap m n = some (a, s)) :
    List.Perm (m.map (fun kv => kv.2))
      ((a, s) :: (removeMap m n).map (fun kv => kv.2)) := by
  induction m with
  | nil => cases h
  | cons kw rest ih =>
    obtain ⟨k, w⟩ := kw
    rw [lookupMap] at h
    rw [removeMap]
    by_cases hk : k = n
    · rw [if_pos hk] at h ⊢
      cases h
      rfl
    · rw [if_neg hk] at h ⊢
      simp only [List.map_cons]
      exact ((ih h).cons w).trans (List.Perm.swap _ _ _)

theorem splitFit_eq {fl : List (Nat × Nat)} {w : Nat}
    {pre : List (Nat × Nat)} {blk : Nat × Nat} {post : List (Nat × Nat)}
    (h : splitFit fl w = some (pre, blk, post)) :
    fl = pre ++ blk :: post ∧ w ≤ blk.2 := by
  induction fl generalizing pre with
  | nil => cases h
  | cons b rest ih =>
    by_cases hb : b.2 ≥ w
    · rw [splitFit, if_pos hb] at h
      cases h
      exact ⟨rfl, hb⟩
    · rw [splitFit, if_neg hb] at h
      cases hs : splitFit rest w with
      | some r =>
        obtain ⟨p, bb, po⟩ := r
        rw [hs] at h
        cases h
        obtain ⟨h1, h2⟩ := ih hs
        exact ⟨by rw [h1]; rfl, h2⟩
      | none => rw [hs] at h; cases h

theorem okInv_fresh : okInv freshAllocator := by
  refine ⟨by decide, ?_, ?_⟩ <;> simp [allIntervals, freshAllocator]

theorem okInv_reset (st : MemoryAllocator) : okInv st.reset := okInv_fresh

theorem okInv_free (st : MemoryAllocator) (n : String) (h : okInv st) :
    okInv (st.free n).1 := by
  obtain ⟨hbound, hwithin, hcount⟩ := h
  unfold MemoryAllocator.free
  cases hl : lookupMap st.memory_map n with
  | none => exact ⟨hbound, hwithin, hcount⟩
  | some v =>
    obtain ⟨a, s⟩ := v
    have hperm : List.Perm
        (allIntervals ⟨st.next_free_addr, removeMap st.memory_map n,
          st.free_list ++ [(a, s)]⟩)
        (allIntervals st) := by
      unfold allIntervals
      dsimp only
      have h1 := lookup_values_perm hl
      have h2 : List.Perm
          ((removeMap st.memory_map n).map (fun kv => kv.2) ++
            (st.free_list ++ [(a, s)]))
          ((removeMap st.memory_map n).map (fun kv => kv.2) ++
            ((a, s) :: st.free_list)) :=
        List.Perm.append_left _ (List.perm_append_singleton _ _)
      have h3 : List.Perm
          ((removeMap st.memory_map n).map (fun kv => kv.2) ++
            ((a, s) :: st.free_list))
          (((a, s) :: (removeMap st.memory_map n).map (fun kv => kv.2)) ++
            st.free_list) :=
        List.perm_middle
      exact (h2.trans h3).trans (h1.symm.append_right _)
    exact ⟨hbound, fun iv hiv => hwithin iv (hperm.mem_iff.mp hiv),
      fun x => by rw [hperm.countP_eq]; exact hcount x⟩

theorem if_bool_toNat (b : Bool) : (if b = true then (1 : Nat) else 0) = b.toNat := by
  cases b <;> rfl

/-- Splitting a block `(fa, fs)` into `(fa, w)` and `(fa+w, fs-w)` keeps
the set of covered addresses: per address, the indicator counts agree. -/
theorem containsB_split (x fa w fs : Nat) (hw : w ≤ fs) :
    (containsB x (fa, w)).toNat + (containsB x (fa + w, fs - w)).toNat =
      (containsB x (fa, fs)).toNat := by
  unfold containsB
  by_cases h1 : fa ≤ x ∧ x < fa + w <;>
    by_cases h2 : fa + w ≤ x ∧ x < fa + w + (fs - w) <;>
    by_cases h3 : fa ≤ x ∧ x < fa + fs <;>
    simp [h1, h2, h3] <;> omega

theorem okInv_alloc (st : MemoryAllocator) (n : String) (w : Nat)
    (h : okInv st) : okInv (st.alloc n w).1 := by
  obtain ⟨hbound, hwithin, hcount⟩ := h
  unfold MemoryAllocator.alloc
  cases hs : splitFit st.free_list w with
  | none =>
    by_cases hov : st.next_free_addr + w > MEMORY_SIZE
    · rw [if_pos hov]
      exact ⟨hbound, hwithin, hcount⟩
    · rw [if_neg hov]
      have hov8 : st.next_free_addr + w ≤ 8192 := by
        unfold MEMORY_SIZE at hov; omega
      show okInv ⟨st.next_free_addr + w,
        insertMap st.memory_map n (st.next_free_addr, w), st.free_list⟩
      refine ⟨hov8, ?_, ?_⟩
      · intro iv hiv
        show iv.1 + iv.2 ≤ st.next_free_addr + w
        unfold allIntervals at hiv
        dsimp only at hiv
        rw [List.mem_append] at hiv
        rcases hiv with hm | hf
        · rcases values_insertMap_mem hm with rfl | hold
          · exact Nat.le.refl
          · have := hwithin iv (List.mem_append.mpr (Or.inl hold))
            omega
        · have := hwithin iv (List.mem_append.mpr (Or.inr hf))
          omega
      · intro x
        unfold allIntervals
        dsimp only
        rw [List.countP_append]
        have hins := countP_values_insertMap st.memory_map n
          (st.next_free_addr, w) (containsB x)
        rw [if_bool_toNat] at hins
        have holdx := hcount x
        unfold allIntervals at holdx
        rw [List.countP_append] at holdx
        by_cases hx : containsB x (st.next_free_addr, w) = true
        · have hxge : st.next_free_addr ≤ x := by
            unfold containsB at hx
            rw [decide_eq_true_eq] at hx
            dsimp only at hx
            omega
          have hz1 : (st.memory_map.map (fun kv => kv.2)).countP
              (containsB x) = 0 := by
            rw [List.countP_eq_zero]
            intro iv hiv
            have hwv := hwithin iv (List.mem_append.mpr (Or.inl hiv))
            unfold containsB
            intro hc
            rw [decide_eq_true_eq] at hc
            omega
          have hz2 : st.free_list.countP (containsB x) = 0 := by
            rw [List.countP_eq_zero]
            intro iv hiv
            have hwv := hwithin iv (List.mem_append.mpr (Or.inr hiv))
            unfold containsB
            intro hc
            rw [decide_eq_true_eq] at hc
            omega
          rw [hz2]
          rw [hx] at hins
          simp only [Bool.toNat_true] at hins
          omega
        · have hx0 : (containsB x (st.next_free_addr, w)).toNat = 0 := by
            cases hc : containsB x (st.next_free_addr, w)
            · rfl
            · exact absurd hc hx
          rw [hx0] at hins
          omega
  | some r =>
    obtain ⟨pre, blk, post⟩ := r
    obtain ⟨fa, fs⟩ := blk
    obtain ⟨hfl, hwle⟩ := splitFit_eq hs
    show okInv ⟨st.next_free_addr, insertMap st.memory_map n (fa, w),
      if fs > w then (pre ++ post) ++ [(fa + w, fs - w)] else pre ++ post⟩
    have hblk : (fa, fs) ∈ allIntervals st := by
      unfold allIntervals
      rw [List.mem_append]
      refine Or.inr ?_
      rw [hfl]
      exact List.mem_append.mpr (Or.inr (List.mem_cons_self _ _))
    have hblkw := hwithin _ hblk
    refine ⟨hbound, ?_, ?_⟩
    · intro iv hiv
      show iv.1 + iv.2 ≤ st.next_free_addr
      unfold allIntervals at hiv
      dsimp only at hiv
      rw [List.mem_append] at hiv
      rcases hiv with hm | hf
      · rcases values_insertMap_mem hm with rfl | hold
        · dsimp only at hblkw ⊢
          omega
        · exact hwithin iv (List.mem_append.mpr (Or.inl hold))
      · have hmem_old : iv ∈ pre ∨ iv ∈ post → iv ∈ st.free_list := by
          intro hpp
          rw [hfl]
          rcases hpp with hp | hp
          · exact List.mem_append.mpr (Or.inl hp)
          · exact List.mem_append.mpr (Or.inr (List.mem_cons_of_mem _ hp))
        by_cases hrem : fs > w
        · rw [if_pos hrem] at hf
          rw [List.mem_append] at hf
          rcases hf with hf | hf
          · rw [List.mem_append] at hf
            have := hwithin iv (List.mem_append.mpr (Or.inr (hmem_old hf)))
            omega
          · have : iv = (fa + w, fs - w) := by simpa using hf
            subst this
            dsimp only at hblkw ⊢
            omega
        · rw [if_neg hrem] at hf
          rw [List.mem_append] at hf
          have := hwithin iv (List.mem_append.mpr (Or.inr (hmem_old hf)))
          omega
    · intro x
      unfold allIntervals
      dsimp only
      have hins := countP_values_insertMap st.memory_map n (fa, w)
        (containsB x)
      rw [if_bool_toNat] at hins
      have holdx := hcount x
      unfold allIntervals at holdx
      rw [List.countP_append, hfl, List.countP_append, List.countP_cons,
        if_bool_toNat] at holdx
      have hsplit := containsB_split x fa w fs hwle
      have ht1 : (containsB x (fa, w)).toNat ≤ 1 := by
        cases containsB x (fa, w) <;> simp
      have ht2 : (containsB x (fa + w, fs - w)).toNat ≤ 1 := by
        cases containsB x (fa + w, fs - w) <;> simp
      by_cases hrem : fs > w
      · rw [if_pos hrem]
        simp only [List.countP_append, List.countP_cons, List.countP_nil,
          if_bool_toNat]
        omega
      · rw [if_neg hrem]
        simp only [List.countP_append]
        omega

/-- Every state reached from a fresh allocator by a sequence of calls
satisfies the inductive invariant. -/
theorem okInv_runOps (ops : List AllocOp) : okInv (runOps ops) := by
  unfold runOps
  have hgen : ∀ (l : List AllocOp) (st : MemoryAllocator), okInv st →
      okInv (l.foldl applyOp st) := by
    intro l
    induction l with
    | nil => intro st h; exact h
    | cons op rest ih =>
      intro st h
      refine ih _ ?_
      cases op with
      | alloc n w => exact okInv_alloc st n w h
      | free n => exact okInv_free st n h
      | reset => exact okInv_reset st
  exact hgen ops freshAllocator okInv_fresh

/-- A per-address count bound implies pairwise non-overlap. -/
theorem pairwise_of_countP (l : List (Nat × Nat))
    (h : ∀ x, l.countP (containsB x) ≤ 1) :
    l.Pairwise (fun p q => ¬ivOverlap p q) := by
  induction l with
  | nil => exact List.Pairwise.nil
  | cons iv rest ih =>
    refine List.Pairwise.cons ?_ (ih fun x => ?_)
    · intro q hq hover
      obtain ⟨x, h1, h2⟩ := hover
      have hx := h x
      rw [List.countP_cons] at hx
      have hiv : containsB x iv = true := by
        unfold containsB; rw [decide_eq_true_eq]; omega
      have hqx : containsB x q = true := by
        unfold containsB; rw [decide_eq_true_eq]; omega
      have hpos : 0 < rest.countP (containsB x) :=
        List.countP_pos_iff.mpr ⟨q, hq, hqx⟩
      rw [hiv] at hx
      have hone : (if (true : Bool) = true then (1 : Nat) else 0) = 1 := rfl
      rw [hone] at hx
      omega
    · have hx := h x
      rw [List.countP_cons] at hx
      omega

/-- C5, claim theorem.
Every reachable state of a `MemoryAllocator` — starting fresh and
applying any sequence of `alloc` (successful or raising), `free`, and
`reset` calls — has all address intervals recorded in `memory_map` and
`free_list` pairwise non-overlapping and lying within [0, 8192). -/
theorem claim_C5 (ops : List AllocOp) :
    (allIntervals (runOps ops)).Pairwise (fun p q => ¬ivOverlap p q) ∧
    ∀ iv ∈ allIntervals (runOps ops), iv.1 + iv.2 ≤ 8192 := by
  obtain ⟨hbound, hwithin, hcount⟩ := okInv_runOps ops
  exact ⟨pairwise_of_countP _ hcount,
    fun iv hiv => le_trans (hwithin iv hiv) hbound⟩

/-- C5, witness: the invariant instantiated on a concrete call sequence
(alloc, alloc, free, alloc with first-fit reuse). -/
theorem claim_C5_witness :
    (16, 8) ∈ allIntervals
      (runOps [.alloc "a" 16, .alloc "b" 8, .free "a", .alloc "c" 4]) ∧
    (16 : Nat) + 8 ≤ 8192 :=
  ⟨by decide, (claim_C5 [.alloc "a" 16, .alloc "b" 8, .free "a",
    .alloc "c" 4]).2 (16, 8) (by decide)⟩

/-! ## Symbolic kernel compiler (src/compiler/kernel.py)

A `Param(name, offset)` is a symbolic address; a `SymbolicInstruction`
holds an operation tag and a tuple of operands, each a `Param`, a plain
integer, or a boolean (the SIMD `scalar` flag).  Python treats booleans
as the integers 0/1 where an address is expected and any integer as a
truth value where a flag is expected; `RVal.asInt` / `RVal.asBool` model
this coercion. -/

/-- An operand of a `SymbolicInstruction`: `Param`, `int` or `bool`. -/
inductive Operand where
  | param (name : String) (offset : Int)
  | int (n : Int)
  | bool (b : Bool)
deriving DecidableEq

/-- A resolved operand value. -/
inductive RVal where
  | i (n : Int)
  | b (b : Bool)
deriving DecidableEq

def RVal.asInt : RVal → Int
  | .i n => n
  | .b v => if v then 1 else 0

def RVal.asBool : RVal → Bool
  | .i n => decide (n ≠ 0)
  | .b v => v

def lookupBinding : List (String × Int) → String → Option Int
  | [], _ => none
  | (k, v) :: rest, n => if k = n then some v else lookupBinding rest n

/-- `Param.resolve(bindings)`: the bound base plus the offset, which must
land in [0, 8191]. -/
def resolveParam (bnd : List (String × Int)) (name : String)
    (offset : Int) : Except String Int :=
  match lookupBinding bnd name with
  | none => Except.error ("Parameter not bound: " ++ name)
  | some v =>
    let addr := v + offset
    if 0 ≤ addr ∧ addr ≤ (ADDR_MAX : Int) then Except.ok addr
    else Except.error "Resolved address out of range (0..8191)"

def resolveOperand (bnd : List (String × Int)) : Operand → Except String RVal
  | .param n off =>
    match resolveParam bnd n off with
    | .ok addr => .ok (.i addr)
    | .error e => .error e
  | .int n => .ok (.i n)
  | .bool v => .ok (.b v)

/-- A symbolic instruction: operation tag plus operand tuple. -/
structure SymbolicInstruction where
  op : String
  operands : List Operand
deriving DecidableEq

/-- Effectful map over a list, stopping at the first error (a Python
list comprehension whose body may raise). -/
def mapE {α β : Type} (f : α → Except String β) :
    List α → Except String (List β)
  | [] => Except.ok []
  | a :: as =>
    match f a with
    | .error e => .error e
    | .ok b =>
      match mapE f as with
      | .error e => .error e
      | .ok bs => .ok (b :: bs)

/-- `SymbolicInstruction.resolve(bindings)`: resolve each operand, then
dispatch on the operation tag to the matching encoder, with exactly the
operand shapes of the source. -/
def SymbolicInstruction.resolve (si : SymbolicInstruction)
    (bnd : List (String × Int)) : Except String Nat :=
  match mapE (resolveOperand bnd) si.operands with
  | .error e => .error e
  | .ok resolved =>
    if si.op = "matmul" then
      match resolved with
      | [w, x, z, len] => encode_systolic w.asInt x.asInt z.asInt len.asInt
      | _ => .error "ValueError: unpack"
    else if si.op = "vload" then
      match resolved with
      | [vreg, addr] => encode_vload vreg.asInt addr.asInt
      | _ => .error "ValueError: unpack"
    else if si.op = "vstore" then
      match resolved with
      | [vreg, addr] => encode_vstore vreg.asInt addr.asInt
      | _ => .error "ValueError: unpack"
    else if si.op = "vrelu" then
      match resolved with
      | [dst, src] => encode_vcompute si.op dst.asInt src.asInt 0 false
      | _ => .error "ValueError: unpack"
    else if si.op = "vmax" ∨ si.op = "vmin" then
      match resolved with
      | [dst, a, b] => encode_vcompute si.op dst.asInt a.asInt b.asInt false
      | _ => .error "ValueError: unpack"
    else if (OPCODES_VCOMPUTE si.op).isSome then
      match resolved with
      | [dst, a, b, s] => encode_vcompute si.op dst.asInt a.asInt b.asInt s.asBool
      | _ => .error "ValueError: unpack"
    else if (OPCODES_VPU si.op).isSome then
      -- `resolved[:3]` plus `resolved[3] if len(resolved) > 3 else 0`
      match resolved with
      | a :: b :: o :: rest =>
        encode_vpu si.op a.asInt b.asInt o.asInt
          (match rest with | [] => 0 | c :: _ => c.asInt)
      | _ => .error "ValueError: unpack"
    else
      .error ("Unknown operation: " ++ si.op)

/-- A compiled kernel: name, ordered parameter names, symbolic
instructions. -/
structure CompiledKernel where
  name : String
  params : List String
  instructions : List SymbolicInstruction
deriving DecidableEq

/-- `CompiledKernel.resolve(bindings)`: first checks every parameter is
bound (`set(params) - set(bindings)`), then resolves each instruction in
order. -/
def CompiledKernel.resolve (k : CompiledKernel)
    (bnd : List (String × Int)) : Except String (List Nat) :=
  match k.params.filter (fun p => (lookupBinding bnd p).isNone) with
  | [] => mapE (fun si => si.resolve bnd) k.instructions
  | missing => Except.error ("Missing bindings for: " ++ String.intercalate ", " missing)

/-- A kernel definition as seen by `Program.call`: the function's
`__name__`, its declared `Param` parameter names, and the symbolic
instruction list its body emits when traced once under
`InstructionCapture` (`KernelCompiler.compile` step 3). -/
structure KernelDef where
  fnName : String
  params : List String
  body : List SymbolicInstruction
deriving DecidableEq

/-- `KernelFunction.compile()` / `KernelCompiler.compile`: tracing the
body yields the captured instructions. -/
def compileKernel (k : KernelDef) : CompiledKernel :=
  ⟨k.fnName, k.params, k.body⟩

/-- A scheduled kernel call with bindings (`KernelCall`). -/
structure KernelCall where
  kernel : CompiledKernel
  bindings : List (String × Int)
deriving DecidableEq

/-- `Program` state: owned allocator, ordered call list, and the
compiled-kernel cache (a dict keyed by the kernel function's name). -/
structure ProgramState where
  allocator : MemoryAllocator
  calls : List KernelCall
  compiled_cache : List (String × CompiledKernel)
deriving DecidableEq

def freshProgram : ProgramState := ⟨freshAllocator, [], []⟩

def lookupCache : List (String × CompiledKernel) → String →
    Option CompiledKernel
  | [], _ => none
  | (k, v) :: rest, n => if k = n then some v else lookupCache rest n

/-- `Program.call(kernel, **bindings)` with an un-compiled
`KernelFunction`: compile-and-cache keyed by `kernel._fn.__name__`, then
append a `KernelCall`.  Also returns the `CompiledKernel` used and
whether this call compiled (traced) the kernel. -/
def programCallDef (st : ProgramState) (k : KernelDef)
    (bnd : List (String × Int)) : ProgramState × CompiledKernel × Bool :=
  match lookupCache st.compiled_cache k.fnName with
  | some c => ({ st with calls := st.calls ++ [⟨c, bnd⟩] }, c, false)
  | none =>
    let c := compileKernel k
    ({ st with compiled_cache := st.compiled_cache ++ [(k.fnName, c)],
               calls := st.calls ++ [⟨c, bnd⟩] }, c, true)

/-- `Program.call` with an already-compiled kernel: just appends. -/
def programCallCompiled (st : ProgramState) (c : CompiledKernel)
    (bnd : List (String × Int)) : ProgramState :=
  { st with calls := st.calls ++ [⟨c, bnd⟩] }

/-- `Program.compile()`: resolve every call in order, concatenate, and
append exactly one HALT. -/
def programCompile (st : ProgramState) : Except String (List Nat) :=
  match mapE (fun call => call.kernel.resolve call.bindings) st.calls with
  | .error e => .error e
  | .ok parts => .ok (parts.flatten ++ [encode_halt])

/-- `KernelLauncher.launch_batch(kernels)`: resolve all, concatenate,
append one HALT, hand the stream to `write_instructions`, and return the
executed-instruction count (stream length minus the HALT). -/
def launch_batch (kernels : List (CompiledKernel × List (String × Int))) :
    Except String (List Nat × Nat) :=
  match mapE (fun kb => kb.1.resolve kb.2) kernels with
  | .error e => .error e
  | .ok parts =>
    let combined := parts.flatten ++ [encode_halt]
    .ok (combined, combined.length - 1)

/-! ### Resolved words are never HALT -/

theorem encode_vpu_ok_lt {op : String} {a b o c : Int} {w : Nat}
    (h : encode_vpu op a b o c = Except.ok w) : w < 2 ^ 63 := by
  rw [encode_vpu_def] at h
  cases hop : OPCODES_VPU op <;> rw [hop] at h
  · cases h
  · split_ifs at h <;> cases h
    calc vpuWord _ _ _ _ _ < 2 ^ 62 := vpuWord_lt _ _ _ _ _
      _ < 2 ^ 63 := by norm_num

theorem encode_systolic_ok_lt {a b o len : Int} {w : Nat}
    (h : encode_systolic a b o len = Except.ok w) : w < 2 ^ 63 := by
  rw [encode_systolic_def] at h
  split_ifs at h <;> cases h
  exact systolicWord_lt _ _ _ _

theorem encode_vload_ok_lt {vreg addr : Int} {w : Nat}
    (h : encode_vload vreg addr = Except.ok w) : w < 2 ^ 63 := by
  rw [encode_vload_def] at h
  split_ifs at h <;> cases h
  calc vloadWord _ _ < 2 ^ 62 := vloadWord_lt _ _
    _ < 2 ^ 63 := by norm_num

theorem encode_vstore_ok_lt {vreg addr : Int} {w : Nat}
    (h : encode_vstore vreg addr = Except.ok w) : w < 2 ^ 63 := by
  rw [encode_vstore_def] at h
  split_ifs at h <;> cases h
  calc vstoreWord _ _ < 2 ^ 62 := vstoreWord_lt _ _
    _ < 2 ^ 63 := by norm_num

theorem encode_vcompute_ok_lt {op : String} {dst a b : Int} {s : Bool}
    {w : Nat} (h : encode_vcompute op dst a b s = Except.ok w) :
    w < 2 ^ 63 := by
  rw [encode_vcompute_def] at h
  cases hop : OPCODES_VCOMPUTE op <;> rw [hop] at h
  · cases h
  · split_ifs at h <;> cases h
    calc vcomputeWord _ _ _ _ _ < 2 ^ 62 := vcomputeWord_lt _ _ _ _ _
      _ < 2 ^ 63 := by norm_num

/-- Every word a symbolic instruction resolves to comes from one of the
five non-HALT encoders, so it is below `2^63`. -/
theorem resolve_ok_lt {si : SymbolicInstruction}
    {bnd : List (String × Int)} {w : Nat}
    (h : si.resolve bnd = Except.ok w) : w < 2 ^ 63 := by
  unfold SymbolicInstruction.resolve at h
  cases hm : mapE (resolveOperand bnd) si.operands <;> rw [hm] at h
  · cases h
  · split_ifs at h <;>
      (try split at h) <;>
      (try split at h) <;>
      first
        | cases h
        | exact encode_systolic_ok_lt h
        | exact encode_vload_ok_lt h
        | exact encode_vstore_ok_lt h
        | exact encode_vcompute_ok_lt h
        | exact encode_vpu_ok_lt h

theorem resolve_ok_ne_halt {si : SymbolicInstruction}
    {bnd : List (String × Int)} {w : Nat}
    (h : si.resolve bnd = Except.ok w) : w ≠ encode_halt := by
  have := resolve_ok_lt h
  rw [encode_halt_eq]
  norm_num at this ⊢
  omega

/-! ### `mapE` characterization -/

theorem mapE_ok_iff {α β : Type} (f : α → Except String β) (l : List α)
    (l' : List β) :
    mapE f l = Except.ok l' ↔
      List.Forall₂ (fun a b => f a = Except.ok b) l l' := by
  induction l generalizing l' with
  | nil =>
    cases l' <;> simp [mapE]
  | cons a as ih =>
    rw [mapE]
    cases hf : f a with
    | error e =>
      constructor
      · intro hc; cases hc
      · intro hc
        cases hc with
        | cons hab _ => rw [hf] at hab; cases hab
    | ok b =>
      cases hm : mapE f as with
      | error e =>
        constructor
        · intro hc; cases hc
        · intro hc
          cases hc with
          | cons _ htail =>
            rw [← ih] at htail
            rw [htail] at hm
            cases hm
      | ok bs =>
        constructor
        · intro hc
          cases hc
          exact List.Forall₂.cons hf ((ih bs).mp hm)
        · intro hc
          cases l' with
          | nil => cases hc
          | cons b' bs' =>
            cases hc with
            | cons hab htail =>
              rw [hf] at hab
              cases hab
              have := (ih bs').mpr htail
              rw [this] at hm
              cases hm
              rfl

theorem mapE_ok_mem {α β : Type} {f : α → Except String β} {l : List α}
    {l' : List β} (h : mapE f l = Except.ok l') {b : β} (hb : b ∈ l') :
    ∃ a ∈ l, f a = Except.ok b := by
  induction l generalizing l' with
  | nil => rw [mapE] at h; cases h; cases hb
  | cons a as ih =>
    rw [mapE] at h
    cases hf : f a <;> rw [hf] at h
    · cases h
    · cases hm : mapE f as <;> rw [hm] at h
      · cases h
      · cases h
        rcases List.mem_cons.mp hb with rfl | hb'
        · exact ⟨a, List.mem_cons_self _ _, hf⟩
        · obtain ⟨a', ha', hfa'⟩ := ih hm hb'
          exact ⟨a', List.mem_cons_of_mem _ ha', hfa'⟩

/-- Every word in a successful `CompiledKernel.resolve` is a resolved
instruction word, hence not HALT. -/
theorem kernel_resolve_ne_halt {k : CompiledKernel}
    {bnd : List (String × Int)} {ws : List Nat}
    (h : k.resolve bnd = Except.ok ws) : ∀ w ∈ ws, w ≠ encode_halt := by
  unfold CompiledKernel.resolve at h
  cases hmiss : k.params.filter (fun p => (lookupBinding bnd p).isNone) <;>
    rw [hmiss] at h
  · intro w hw
    obtain ⟨si, _, hsi⟩ := mapE_ok_mem h hw
    exact resolve_ok_ne_halt hsi
  · cases h

/-- C3, claim theorem.
The stream produced by `Program.compile()` (and by `launch_batch`) is the
concatenation of each call's resolved instruction words in
call-submission order, followed by exactly one trailing HALT, with no
HALT anywhere else; `launch_batch([])` hands the device the 1-word
stream `[HALT]` and reports 0 executed instructions. -/
theorem claim_C3 :
    (∀ (st : ProgramState) (l : List Nat),
      programCompile st = Except.ok l →
      ∃ parts : List (List Nat),
        List.Forall₂ (fun call ws =>
          call.kernel.resolve call.bindings = Except.ok ws) st.calls parts ∧
        l = parts.flatten ++ [encode_halt] ∧
        ∀ w ∈ parts.flatten, w ≠ encode_halt) ∧
    (∀ (ks : List (CompiledKernel × List (String × Int)))
        (stream : List Nat) (count : Nat),
      launch_batch ks = Except.ok (stream, count) →
      ∃ parts : List (List Nat),
        List.Forall₂ (fun kb ws => kb.1.resolve kb.2 = Except.ok ws)
          ks parts ∧
        stream = parts.flatten ++ [encode_halt] ∧
        count = parts.flatten.length ∧
        ∀ w ∈ parts.flatten, w ≠ encode_halt) ∧
    launch_batch [] = Except.ok ([encode_halt], 0) := by
  refine ⟨?_, ?_, by rfl⟩
  · intro st l h
    unfold programCompile at h
    cases hm : mapE (fun call => call.kernel.resolve call.bindings)
        st.calls <;> rw [hm] at h
    · cases h
    · cases h
      rename_i parts
      refine ⟨parts, (mapE_ok_iff _ _ _).mp hm, rfl, ?_⟩
      intro w hw
      obtain ⟨ws, hws, hwmem⟩ := List.mem_flatten.mp hw
      obtain ⟨call, _, hcall⟩ := mapE_ok_mem hm hws
      exact kernel_resolve_ne_halt hcall w hwmem
  · intro ks stream count h
    unfold launch_batch at h
    cases hm : mapE (fun kb => kb.1.resolve kb.2) ks <;> rw [hm] at h
    · cases h
    · cases h
      rename_i parts
      refine ⟨parts, (mapE_ok_iff _ _ _).mp hm, rfl, ?_, ?_⟩
      · rw [List.length_append]
        rfl
      · intro w hw
        obtain ⟨ws, hws, hwmem⟩ := List.mem_flatten.mp hw
        obtain ⟨kb, _, hkb⟩ := mapE_ok_mem hm hws
        exact kernel_resolve_ne_halt hkb w hwmem

/-- C3, witness: a concrete two-call program compiles to the two resolved
words followed by one HALT, in submission order with no other HALT. -/
theorem claim_C3_witness :
    programCompile ⟨freshAllocator,
      [⟨⟨"k", ["A"], [⟨"add", [.param "A" 0, .param "A" 4, .param "A" 8]⟩]⟩,
        [("A", 0)]⟩,
       ⟨⟨"m", [], [⟨"matmul", [.int 0, .int 16, .int 32, .int 16]⟩]⟩, []⟩],
      []⟩ = Except.ok
        [vpuWord 0 0 4 8 0, systolicWord 0 16 32 16, encode_halt] ∧
    ∃ parts : List (List Nat),
      List.Forall₂ (fun call ws =>
        call.kernel.resolve call.bindings = Except.ok ws)
        [(⟨⟨"k", ["A"], [⟨"add", [.param "A" 0, .param "A" 4, .param "A" 8]⟩]⟩,
          [("A", 0)]⟩ : KernelCall),
         ⟨⟨"m", [], [⟨"matmul", [.int 0, .int 16, .int 32, .int 16]⟩]⟩, []⟩]
        parts ∧
      [vpuWord 0 0 4 8 0, systolicWord 0 16 32 16, encode_halt] =
        parts.flatten ++ [encode_halt] ∧
      ∀ w ∈ parts.flatten, w ≠ encode_halt := by
  have h : programCompile ⟨freshAllocator,
      [⟨⟨"k", ["A"], [⟨"add", [.param "A" 0, .param "A" 4, .param "A" 8]⟩]⟩,
        [("A", 0)]⟩,
       ⟨⟨"m", [], [⟨"matmul", [.int 0, .int 16, .int 32, .int 16]⟩]⟩, []⟩],
      []⟩ = Except.ok
        [vpuWord 0 0 4 8 0, systolicWord 0 16 32 16, encode_halt] := by rfl
  exact ⟨h, claim_C3.1 _ _ h⟩

/-! ## The instruction-memory limit (C1)

Only the text assembler checks the 256-word hardware limit.  The check
at the end of `assemble_file`, at the word level: HALT is appended and
the resulting count compared against `IMEM_MAX_SIZE`. -/

/-- The tail of `assemble_file(...)`: append HALT, then raise
`CompilationError` when the stream exceeds `IMEM_MAX_SIZE` words. -/
def assemble_imem_check (assembled_words : List Nat) :
    Except String (List Nat) :=
  let ws := assembled_words ++ [encode_halt]
  if ws.length > IMEM_MAX_SIZE then
    Except.error "CompilationError: exceeds IMEM limit of 256"
  else
    Except.ok ws

/-- A 300-call program: each call is one scalar `add` instruction with
concrete operands, so the compiled stream has 301 words. -/
def overflowProgram : ProgramState :=
  ⟨freshAllocator,
    List.replicate 300 ⟨⟨"k", [], [⟨"add", [.int 0, .int 0, .int 0]⟩]⟩, []⟩,
    []⟩

set_option maxRecDepth 40000 in
/-- C1, counterexample: `Program.compile` hands back a 301-word stream
(300 instructions plus HALT) without raising any error, although
301 > 256; `launch_batch` passes the same 301-word stream to
`write_instructions`.  The claimed `InstructionMemoryOverflowError` is
never raised on this path. -/
theorem claim_C1_counterexample :
    programCompile overflowProgram =
      Except.ok (List.replicate 300 (vpuWord 0 0 0 0 0) ++ [encode_halt]) ∧
    (List.replicate 300 (vpuWord 0 0 0 0 0) ++ [encode_halt]).length = 301 ∧
    launch_batch (List.replicate 300
        (⟨"k", [], [⟨"add", [.int 0, .int 0, .int 0]⟩]⟩, [])) =
      Except.ok (List.replicate 300 (vpuWord 0 0 0 0 0) ++ [encode_halt],
        300) ∧
    256 < 301 := by
  refine ⟨by decide, by decide, by decide, by decide⟩

/-- C1, amended claim theorem.
`Program.compile()` and `launch_batch` append exactly one trailing HALT
but perform no instruction-memory-limit check: any call list whose
resolution succeeds yields the full stream, of any length.  The ≤256
limit (including the trailing HALT) is enforced only by the text
assembler's `assemble_file`, which errs exactly when the assembled count
exceeds 256. -/
theorem claim_C1_amended :
    (∀ (st : ProgramState) (parts : List (List Nat)),
      List.Forall₂ (fun call ws =>
        call.kernel.resolve call.bindings = Except.ok ws) st.calls parts →
      programCompile st = Except.ok (parts.flatten ++ [encode_halt])) ∧
    (∀ (ks : List (CompiledKernel × List (String × Int)))
        (parts : List (List Nat)),
      List.Forall₂ (fun kb ws => kb.1.resolve kb.2 = Except.ok ws) ks parts →
      launch_batch ks =
        Except.ok (parts.flatten ++ [encode_halt], parts.flatten.length)) ∧
    (∀ ws : List Nat,
      (∃ e, assemble_imem_check ws = Except.error e) ↔ ws.length + 1 > 256) := by
  refine ⟨?_, ?_, ?_⟩
  · intro st parts hfa
    unfold programCompile
    rw [(mapE_ok_iff _ _ _).mpr hfa]
  · intro ks parts hfa
    unfold launch_batch
    rw [(mapE_ok_iff _ _ _).mpr hfa]
    show Except.ok (parts.flatten ++ [encode_halt],
        (parts.flatten ++ [encode_halt]).length - 1) =
      Except.ok (parts.flatten ++ [encode_halt], parts.flatten.length)
    rw [List.length_append]
    rfl
  · intro ws
    unfold assemble_imem_check IMEM_MAX_SIZE
    dsimp only
    have hc : (ws ++ [encode_halt]).length = ws.length + 1 := by
      rw [List.length_append]
      rfl
    rw [hc]
    by_cases hlen : ws.length + 1 > 256
    · rw [if_pos hlen]
      exact ⟨fun _ => hlen, fun _ => ⟨_, rfl⟩⟩
    · rw [if_neg hlen]
      constructor
      · rintro ⟨e, he⟩; cases he
      · intro hcon; exact absurd hcon hlen

set_option maxRecDepth 40000 in
/-- C1 (amended), witness: a one-call program compiles to its word plus
HALT; `assemble_imem_check` accepts 255 words and rejects 256. -/
theorem claim_C1_witness :
    programCompile ⟨freshAllocator,
      [⟨⟨"k", [], [⟨"add", [.int 0, .int 0, .int 0]⟩]⟩, []⟩], []⟩ =
      Except.ok ([vpuWord 0 0 0 0 0] ++ [encode_halt]) ∧
    (∃ e, assemble_imem_check (List.replicate 256 0) = Except.error e) ∧
    (List.replicate 256 0).length + 1 > 256 := by
  refine ⟨?_, ?_, by decide⟩
  · exact claim_C1_amended.1 _ [[vpuWord 0 0 0 0 0]]
      (List.Forall₂.cons (by rfl) List.Forall₂.nil)
  · exact (claim_C1_amended.2.2 (List.replicate 256 0)).mpr (by decide)

/-! ## Kernel compilation caching in `Program.call` (C6) -/

theorem lookupCache_append_self {l : List (String × CompiledKernel)}
    {n : String} (h : lookupCache l n = none) (c : CompiledKernel) :
    lookupCache (l ++ [(n, c)]) n = some c := by
  induction l with
  | nil => simp [lookupCache]
  | cons kv rest ih =>
    obtain ⟨k, v⟩ := kv
    rw [lookupCache] at h
    rw [List.cons_append, lookupCache]
    by_cases hk : k = n
    · rw [if_pos hk] at h; cases h
    · rw [if_neg hk] at h ⊢
      exact ih h

/-- C6, counterexample: the compilation cache is keyed by the kernel
function's `__name__`, not its identity.  Two distinct kernel definitions
named "k" (empty body vs one `add`) share one cache entry: the second
`Program.call` reuses the first kernel's `CompiledKernel` and never
traces the second, so the call list records the wrong kernel. -/
theorem claim_C6_counterexample :
    (⟨"k", [], []⟩ : KernelDef) ≠
      ⟨"k", [], [⟨"add", [.int 0, .int 0, .int 0]⟩]⟩ ∧
    compileKernel ⟨"k", [], []⟩ ≠
      compileKernel ⟨"k", [], [⟨"add", [.int 0, .int 0, .int 0]⟩]⟩ ∧
    (programCallDef
      (programCallDef freshProgram ⟨"k", [], []⟩ []).1
      ⟨"k", [], [⟨"add", [.int 0, .int 0, .int 0]⟩]⟩ []) =
      (⟨freshAllocator,
        [⟨compileKernel ⟨"k", [], []⟩, []⟩,
         ⟨compileKernel ⟨"k", [], []⟩, []⟩],
        [("k", compileKernel ⟨"k", [], []⟩)]⟩,
       compileKernel ⟨"k", [], []⟩, false) := by
  refine ⟨by decide, by decide, by decide⟩

/-- C6, amended claim theorem.
Scheduling an un-compiled kernel twice via `Program.call` traces and
compiles it at most once — the second call reuses the cached
`CompiledKernel` and reports no compilation — but the cache is keyed by
the kernel function's name: any second kernel with the same name, even a
distinct definition, reuses the first kernel's cache entry. -/
theorem claim_C6_amended (st : ProgramState) (k1 k2 : KernelDef)
    (bnd1 bnd2 : List (String × Int)) (hname : k1.fnName = k2.fnName)
    (st1 : ProgramState) (c1 : CompiledKernel) (b1 : Bool)
    (h1 : programCallDef st k1 bnd1 = (st1, c1, b1)) :
    programCallDef st1 k2 bnd2 =
      ({ st1 with calls := st1.calls ++ [⟨c1, bnd2⟩] }, c1, false) := by
  unfold programCallDef at h1 ⊢
  rw [← hname]
  cases hc : lookupCache st.compiled_cache k1.fnName <;> rw [hc] at h1
  · cases h1
    rw [lookupCache_append_self hc]
  · cases h1
    rw [hc]

/-- C6 (amended), witness: calling the same kernel twice — the second
call appends a `KernelCall` with the cached compiled kernel and does not
compile again. -/
theorem claim_C6_witness :
    programCallDef
      (programCallDef freshProgram ⟨"k", ["A"], []⟩ [("A", 0)]).1
      ⟨"k", ["A"], []⟩ [("A", 16)] =
      (⟨freshAllocator,
        [⟨compileKernel ⟨"k", ["A"], []⟩, [("A", 0)]⟩,
         ⟨compileKernel ⟨"k", ["A"], []⟩, [("A", 16)]⟩],
        [("k", compileKernel ⟨"k", ["A"], []⟩)]⟩,
       compileKernel ⟨"k", ["A"], []⟩, false) := by
  have h := claim_C6_amended freshProgram ⟨"k", ["A"], []⟩ ⟨"k", ["A"], []⟩
    [("A", 0)] [("A", 16)] rfl
    (programCallDef freshProgram ⟨"k", ["A"], []⟩ [("A", 0)]).1
    (compileKernel ⟨"k", ["A"], []⟩) true (by decide)
  rw [h]
  decide

/-! ## Tiled matmul decomposition (src/compiler/tpu_txt.py)

`tiled_matmul` emits logical operations through the module-level `matmul`
and `add` entry points (each appends one entry to the instruction log, or
is captured as one symbolic instruction during tracing).  The emitted
sequence is modelled as a list.  Addresses may be symbolic during
tracing; they are `Int` offsets-from-base here, which covers both the
concrete-address path and the count/shape content of the claims. -/

/-- One logical operation emitted by `tiled_matmul`: a `matmul(W, X, Z)`
call or a scalar `add(X, Y, Z)` call. -/
inductive LogInstr where
  | matmulI (w x z : Int)
  | addI (x y z : Int)
deriving DecidableEq

/-- `tiled_matmul(W_addr, X_addr, Z_addr, M, N, K, tile_size, temp_addr)`
with a caller-provided temp buffer.  `t = 0` is Python's
`ZeroDivisionError` at `M % t`; a dimension not divisible by `t` raises
`ValueError` (the spec's `DimensionMismatchError`). -/
def tiled_matmul (W_addr X_addr Z_addr : Int) (M N K : Nat)
    (tile_size : Nat) (temp_addr : Int) : Except String (List LogInstr) :=
  let t := tile_size
  let t2 := t * t
  if t = 0 then Except.error "ZeroDivisionError"
  else if M % t ≠ 0 then
    Except.error "DimensionMismatchError: M must be multiple of tile_size"
  else if N % t ≠ 0 then
    Except.error "DimensionMismatchError: N must be multiple of tile_size"
  else if K % t ≠ 0 then
    Except.error "DimensionMismatchError: K must be multiple of tile_size"
  else
    let M_tiles := M / t
    let N_tiles := N / t
    let K_tiles := K / t
    Except.ok <|
      (List.range M_tiles).flatMap fun i =>
        (List.range N_tiles).flatMap fun j =>
          let Z_tile_addr := Z_addr + ((i * N_tiles + j) * t2 : Nat)
          (List.range K_tiles).flatMap fun k =>
            let X_tile_addr := X_addr + ((i * K_tiles + k) * t2 : Nat)
            let W_tile_addr := W_addr + ((j * K_tiles + k) * t2 : Nat)
            if k = 0 then
              [LogInstr.matmulI W_tile_addr X_tile_addr Z_tile_addr]
            else
              LogInstr.matmulI W_tile_addr X_tile_addr temp_addr ::
                (List.range t2).map (fun (e : Nat) =>
                  LogInstr.addI (Z_tile_addr + (e : Int))
                    (temp_addr + (e : Int)) (Z_tile_addr + (e : Int)))

theorem length_flatMap_const {α β : Type} (l : List α) (f : α → List β)
    (c : Nat) (h : ∀ a ∈ l, (f a).length = c) :
    (l.flatMap f).length = l.length * c := by
  induction l with
  | nil => simp
  | cons a as ih =>
    rw [List.flatMap_cons, List.length_append, List.length_cons,
      h a (List.mem_cons_self _ _), ih (fun a ha => h a (List.mem_cons_of_mem _ ha))]
    ring

/-- Length of the contraction loop for one output tile: 1 word for the
first step, `1 + t²` for each subsequent step. -/
theorem kloop_length {β : Type} (Kt : Nat) (g : Nat → List β) (t2 : Nat)
    (hg : ∀ k, (g k).length = if k = 0 then 1 else 1 + t2) :
    ((List.range Kt).flatMap g).length =
      if Kt = 0 then 0 else 1 + (Kt - 1) * (1 + t2) := by
  induction Kt with
  | zero => simp
  | succ n ih =>
    rw [List.range_succ, List.flatMap_append, List.length_append, ih]
    rw [List.flatMap_cons, List.flatMap_nil, List.length_append,
      List.length_nil, hg n]
    cases n with
    | zero => simp
    | succ m =>
      have h1 : ¬(m + 1 = 0) := by omega
      have h2 : ¬(m + 1 + 1 = 0) := by omega
      rw [if_neg h1, if_neg h2, if_neg h1]
      have h3 : m + 1 - 1 = m := rfl
      have h4 : m + 1 + 1 - 1 = m + 1 := rfl
      rw [h3, h4]
      ring

/-- C4, counterexample: at `M = N = 4`, `K = 0`, `t = 4` all three
dimensions are divisible by `t`, yet `tiled_matmul` emits 0 operations
while the claimed count `(M/t)·(N/t)·(1 + (K/t − 1)·(1 + t²))` is
`1·1·(1 − 17) = −16`: the claim fails for `K = 0`. -/
theorem claim_C4_counterexample :
    tiled_matmul 0 0 0 4 4 0 4 50 = Except.ok [] ∧
    (((4 : Int) / 4) * ((4 : Int) / 4) *
      (1 + ((0 : Int) / 4 - 1) * (1 + (4 : Int) * 4)) = -16) ∧
    (((([] : List LogInstr).length : Int)) ≠
      ((4 : Int) / 4) * ((4 : Int) / 4) *
        (1 + ((0 : Int) / 4 - 1) * (1 + (4 : Int) * 4))) := by
  refine ⟨by rfl, by decide, by decide⟩

/-- C4, amended claim theorem.
For every `M, N, K` and tile size `t ≥ 1` with a temp buffer available:
if any of `M, N, K` is not divisible by `t`, `tiled_matmul` raises the
dimension-mismatch error; if all are divisible and `K ≥ t` (at least one
contraction step), it emits exactly
`(M/t)·(N/t)·(1 + (K/t − 1)·(1 + t²))` operations; if all are divisible
and `K = 0`, it emits none. -/
theorem claim_C4_amended (W X Z temp : Int) (M N K t : Nat) (ht : 0 < t) :
    ((¬M % t = 0 ∨ ¬N % t = 0 ∨ ¬K % t = 0) →
      ∃ e, tiled_matmul W X Z M N K t temp = Except.error e) ∧
    (M % t = 0 → N % t = 0 → K % t = 0 → 0 < K →
      ∃ ops, tiled_matmul W X Z M N K t temp = Except.ok ops ∧
        ops.length = (M / t) * ((N / t) * (1 + (K / t - 1) * (1 + t * t)))) ∧
    (M % t = 0 → N % t = 0 → K = 0 →
      tiled_matmul W X Z M N K t temp = Except.ok []) := by
  have htne : ¬t = 0 := by omega
  refine ⟨?_, ?_, ?_⟩
  · intro hdiv
    unfold tiled_matmul
    rw [if_neg htne]
    by_cases hM : M % t = 0
    · rw [if_neg (by simpa using hM)]
      by_cases hN : N % t = 0
      · rw [if_neg (by simpa using hN)]
        have hK : ¬K % t = 0 := by tauto
        rw [if_pos (by simpa using hK)]
        exact ⟨_, rfl⟩
      · rw [if_pos (by simpa using hN)]
        exact ⟨_, rfl⟩
    · rw [if_pos (by simpa using hM)]
      exact ⟨_, rfl⟩
  · intro hM hN hK hKpos
    unfold tiled_matmul
    rw [if_neg htne, if_neg (by simpa using hM), if_neg (by simpa using hN),
      if_neg (by simpa using hK)]
    refine ⟨_, rfl, ?_⟩
    have hKt : 0 < K / t := Nat.div_pos (by
      rcases le_or_lt t K with h | h
      · exact h
      · exfalso
        have : K % t = K := Nat.mod_eq_of_lt h
        omega) ht
    rw [length_flatMap_const _ _ ((N / t) * (1 + (K / t - 1) * (1 + t * t)))]
    · rw [List.length_range]
    · intro i _
      rw [length_flatMap_const _ _ (1 + (K / t - 1) * (1 + t * t))]
      · rw [List.length_range]
      · intro j _
        rw [kloop_length (K / t) _ (t * t)]
        · rw [if_neg (by omega)]
        · intro k
          by_cases hk : k = 0
          · rw [if_pos hk, if_pos hk]
            rfl
          · rw [if_neg hk, if_neg hk]
            rw [List.length_cons, List.length_map, List.length_range]
            omega
  · intro hM hN hK0
    subst hK0
    unfold tiled_matmul
    rw [if_neg htne, if_neg (by simpa using hM), if_neg (by simpa using hN),
      if_neg (by simp)]
    rw [Nat.zero_div]
    simp

/-- C4 (amended), witness: the 8×8 matmul with t = 4 (2×2 output tiles,
2 contraction tiles) emits exactly 72 operations; a non-divisible M = 5
raises. -/
theorem claim_C4_witness :
    (∃ ops, tiled_matmul 0 256 512 8 8 8 4 768 = Except.ok ops ∧
      ops.length = 72) ∧
    (∃ e, tiled_matmul 0 256 512 5 8 8 4 768 = Except.error e) := by
  constructor
  · obtain ⟨ops, hok, hlen⟩ :=
      (claim_C4_amended 0 256 512 768 8 8 8 4 (by decide)).2.1
        (by decide) (by decide) (by decide) (by decide)
    refine ⟨ops, hok, ?_⟩
    rw [hlen]
  · exact (claim_C4_amended 0 256 512 768 5 8 8 4 (by decide)).1
      (Or.inl (by decide))

end MiniTPU
